import Mathlib

/-!
# KubeShare scheduler plugin: embedding and properties

The first part embeds `pkg/scheduler/scheduler.go`: the plugin constants, the
`Args` and `KubeShareScheduler` records, the constructor `New` and the
scheduling hooks.  Hooks that write to the logger are state transformers on the
scheduler record whose only effect is one more entry in `ksl`.

The second part models the cell allocation engine that the specification
describes (free lists, split on demand, merge on release); the source file
holds only the fields `cellFreeList` and `cellElements` that carry its state.
-/

namespace KubeShare

/-! ## Constants (scheduler.go, lines 27-35) -/

/-- The name of the plugin used in Registry and configurations. -/
def Name : String := "kubeshare-scheduler"

/-- The file storing the log of the scheduler. -/
def logPath : String := "kubeshare-scheduler.log"

/-- The file storing the physical gpu position. -/
def configPath : String := "/kubeshare/scheduler/kubeshare-config.yaml"

/-! ## Records (scheduler.go, lines 46-74) -/

/-- Plugin arguments, `type Args struct`. -/
structure Args where
  masterURL : String
  kubeConfig : String
  prometheusURL : String
  kubeShareConfig : String
  level : Int
deriving DecidableEq

/-- Severity of a logger call. -/
inductive LogLevel where
  | Debug
  | Info
  | Print
deriving DecidableEq

/-- One call on the logger `ksl`: the method, the format string and the
formatted arguments. -/
structure LogEntry where
  level : LogLevel
  format : String
  args : List String
deriving DecidableEq

/-- The fields of `v1.Pod` that the hooks read: `Namespace`, `Name`, `UID` and
`Spec.NodeName`. -/
structure Pod where
  Namespace : String
  Name : String
  UID : String
  NodeName : String
deriving DecidableEq

/-- The part of `framework.PodInfo` the queue sort sees: the pod and the time it
entered the queue. -/
structure PodInfo where
  Pod : Pod
  Timestamp : Nat
deriving DecidableEq

/-- Status codes of the scheduling framework (`framework.Code`). -/
inductive Code where
  | Success
  | Error
  | Unschedulable
  | UnschedulableAndUnresolvable
  | Wait
  | Skip
deriving DecidableEq

/-- Result of `framework.NewStatus code msg`. -/
structure Status where
  code : Code
  message : String
deriving DecidableEq

/-- Constructor `framework.NewStatus`. -/
def NewStatus (code : Code) (msg : String) : Status := ⟨code, msg⟩

/-- The record `type KubeShareScheduler struct`.  The types of the framework
handle `H`, of the metrics client `P`, of the free-list map `FL`
(`map[string]LevelCellList`) and of the cell-element map `CE`
(`map[string]*cellElement`) are declared outside this file and are parameters.
The logger `ksl` is the sequence of calls made on it.  The lock `cellMutex`
has no content in a sequential model and is left out. -/
structure KubeShareScheduler (H P FL CE : Type) where
  args : Args
  handle : H
  promeAPI : P
  ksl : List LogEntry
  gpuPriority : List (String × Int)
  sortGPUByPriority : List String
  cellFreeList : FL
  cellElements : CE

section Hooks

variable {H P FL CE : Type}

/-- A call `kss.ksl.Infof format args`. -/
def Infof (kss : KubeShareScheduler H P FL CE) (format : String) (args : List String) :
    KubeShareScheduler H P FL CE :=
  { kss with ksl := kss.ksl ++ [⟨LogLevel.Info, format, args⟩] }

/-- A call `kss.ksl.Debugf format args`. -/
def Debugf (kss : KubeShareScheduler H P FL CE) (format : String) (args : List String) :
    KubeShareScheduler H P FL CE :=
  { kss with ksl := kss.ksl ++ [⟨LogLevel.Debug, format, args⟩] }

/-- A call `kss.ksl.Debugln msg`. -/
def Debugln (kss : KubeShareScheduler H P FL CE) (msg : String) :
    KubeShareScheduler H P FL CE :=
  { kss with ksl := kss.ksl ++ [⟨LogLevel.Debug, msg, []⟩] }

/-- Method `Name` (lines 170-172). -/
def KubeShareScheduler.Name (_kss : KubeShareScheduler H P FL CE) : String :=
  KubeShare.Name

/-- Method `Less` (lines 174-178): logs both pods and returns `true`. -/
def KubeShareScheduler.Less (kss : KubeShareScheduler H P FL CE) (podInfo1 podInfo2 : PodInfo) :
    Bool × KubeShareScheduler H P FL CE :=
  let kss1 := Debugf kss "[QueueSort] pod1: %v/%v(%v) v.s. pod2: %v/%v(%v)"
    [podInfo1.Pod.Namespace, podInfo1.Pod.Name, podInfo1.Pod.UID,
     podInfo2.Pod.Namespace, podInfo2.Pod.Name, podInfo2.Pod.UID]
  (true, kss1)

/-- Method `PreFilter` (lines 180-183). -/
def KubeShareScheduler.PreFilter (kss : KubeShareScheduler H P FL CE) (pod : Pod) :
    Status × KubeShareScheduler H P FL CE :=
  let kss1 := Infof kss "[PreFilter] pod: %v/%v(%v) in node %v"
    [pod.Namespace, pod.Name, pod.UID, pod.NodeName]
  (NewStatus Code.Success "", kss1)

/-- Method `PreFilterExtensions` (lines 185-188): logs and returns nil. -/
def KubeShareScheduler.PreFilterExtensions (kss : KubeShareScheduler H P FL CE) :
    Option Unit × KubeShareScheduler H P FL CE :=
  (none, Infof kss "[PreFilterExtensions]" [])

/-- Method `Filter` (lines 190-193); the node info argument is not read. -/
def KubeShareScheduler.Filter (kss : KubeShareScheduler H P FL CE) (pod : Pod)
    (_node : String) : Status × KubeShareScheduler H P FL CE :=
  let kss1 := Infof kss "[Filter] pod: %v/%v(%v) in node %v"
    [pod.Namespace, pod.Name, pod.UID, pod.NodeName]
  (NewStatus Code.Success "", kss1)

/-- Method `Score` (lines 195-198). -/
def KubeShareScheduler.Score (kss : KubeShareScheduler H P FL CE) (pod : Pod)
    (nodeName : String) : (Int × Status) × KubeShareScheduler H P FL CE :=
  let kss1 := Infof kss "[Score] pod: %v/%v(%v) in node %v"
    [pod.Namespace, pod.Name, pod.UID, nodeName]
  ((0, NewStatus Code.Success ""), kss1)

/-- Method `ScoreExtensions` (lines 200-203): logs and returns nil. -/
def KubeShareScheduler.ScoreExtensions (kss : KubeShareScheduler H P FL CE) :
    Option Unit × KubeShareScheduler H P FL CE :=
  (none, Infof kss "[ScoreExtensions]" [])

/-- Method `Reserve` (lines 205-208). -/
def KubeShareScheduler.Reserve (kss : KubeShareScheduler H P FL CE) (pod : Pod)
    (_nodeName : String) : Status × KubeShareScheduler H P FL CE :=
  let kss1 := Infof kss "[Reserve] pod: %v/%v(%v) in node %v"
    [pod.Namespace, pod.Name, pod.UID, pod.NodeName]
  (NewStatus Code.Success "", kss1)

/-- Method `Unreserve` (lines 210-212): logs, returns nothing. -/
def KubeShareScheduler.Unreserve (kss : KubeShareScheduler H P FL CE) (pod : Pod)
    (_nodeName : String) : KubeShareScheduler H P FL CE :=
  Infof kss "[UnReserve] pod: %v/%v(%v) in node %v"
    [pod.Namespace, pod.Name, pod.UID, pod.NodeName]

/-- Method `Permit` (lines 214-217): the second component is the wait
duration. -/
def KubeShareScheduler.Permit (kss : KubeShareScheduler H P FL CE) (pod : Pod)
    (_nodeName : String) : (Status × Nat) × KubeShareScheduler H P FL CE :=
  let kss1 := Infof kss "[Permit] pod: %v/%v(%v) in node %v"
    [pod.Namespace, pod.Name, pod.UID, pod.NodeName]
  ((NewStatus Code.Success "", 0), kss1)

end Hooks

/-! ## Node event handlers (client-go `tools/cache`, imported on line 19)

`New` registers a `cache.FilteringResourceEventHandler` wrapping a
`cache.ResourceEventHandlerFuncs`.  Both are library types; their dispatch
methods are transcribed here over a state type `σ` on which the callbacks
act. -/

/-- Library record `cache.ResourceEventHandlerFuncs`: each callback may be
nil. -/
structure ResourceEventHandlerFuncs (σ Obj : Type) where
  AddFunc : Option (Obj → σ → σ)
  UpdateFunc : Option (Obj → Obj → σ → σ)
  DeleteFunc : Option (Obj → σ → σ)

/-- Library method `OnAdd`: calls `AddFunc` if it is not nil. -/
def ResourceEventHandlerFuncs.OnAdd {σ Obj : Type} (r : ResourceEventHandlerFuncs σ Obj)
    (obj : Obj) (s : σ) : σ :=
  match r.AddFunc with
  | some f => f obj s
  | none => s

/-- Library method `OnUpdate`: calls `UpdateFunc` if it is not nil. -/
def ResourceEventHandlerFuncs.OnUpdate {σ Obj : Type} (r : ResourceEventHandlerFuncs σ Obj)
    (oldObj newObj : Obj) (s : σ) : σ :=
  match r.UpdateFunc with
  | some f => f oldObj newObj s
  | none => s

/-- Library method `OnDelete`: calls `DeleteFunc` if it is not nil. -/
def ResourceEventHandlerFuncs.OnDelete {σ Obj : Type} (r : ResourceEventHandlerFuncs σ Obj)
    (obj : Obj) (s : σ) : σ :=
  match r.DeleteFunc with
  | some f => f obj s
  | none => s

/-- Library record `cache.FilteringResourceEventHandler`.  The filter is a
bound method of the scheduler, so it reads the current state. -/
structure FilteringResourceEventHandler (σ Obj : Type) where
  FilterFunc : σ → Obj → Bool
  Handler : ResourceEventHandlerFuncs σ Obj

/-- Library method `OnAdd` of the filtering handler: objects failing the
filter are dropped. -/
def FilteringResourceEventHandler.OnAdd {σ Obj : Type}
    (r : FilteringResourceEventHandler σ Obj) (obj : Obj) (s : σ) : σ :=
  if !r.FilterFunc s obj then s else r.Handler.OnAdd obj s

/-- Library method `OnUpdate` of the filtering handler: an object that enters
the filter is delivered as an add, one that leaves it as a delete. -/
def FilteringResourceEventHandler.OnUpdate {σ Obj : Type}
    (r : FilteringResourceEventHandler σ Obj) (oldObj newObj : Obj) (s : σ) : σ :=
  let newer := r.FilterFunc s newObj
  let older := r.FilterFunc s oldObj
  if newer && older then r.Handler.OnUpdate oldObj newObj s
  else if newer && !older then r.Handler.OnAdd newObj s
  else if !newer && older then r.Handler.OnDelete oldObj s
  else s

/-- Library method `OnDelete` of the filtering handler. -/
def FilteringResourceEventHandler.OnDelete {σ Obj : Type}
    (r : FilteringResourceEventHandler σ Obj) (obj : Obj) (s : σ) : σ :=
  if !r.FilterFunc s obj then s else r.Handler.OnDelete obj s

/-- An event the node informer delivers to a registered handler. -/
inductive NodeEvent (Obj : Type) where
  | add (obj : Obj)
  | update (oldObj newObj : Obj)
  | delete (obj : Obj)

/-- Delivery of one informer event to a filtering handler. -/
def FilteringResourceEventHandler.deliver {σ Obj : Type}
    (r : FilteringResourceEventHandler σ Obj) (ev : NodeEvent Obj) (s : σ) : σ :=
  match ev with
  | NodeEvent.add obj => r.OnAdd obj s
  | NodeEvent.update oldObj newObj => r.OnUpdate oldObj newObj s
  | NodeEvent.delete obj => r.OnDelete obj s

/-! ## Constructor `New` (scheduler.go, lines 77-168) -/

/-- What `New` calls outside this file, in the order of the calls. -/
inductive Step where
  | loggerNew (level : Int) (path : String)
  | NewClient (address : String)
  | Exit (code : Int)
  | NewAPI
  | initRawConfig
  | watchConfig
  | buildCellChains
  | newCellConstructorBuild
  | SetupSignalHandler
  | AddEventHandler
  | RunInformer
  | WaitForCacheSync
deriving DecidableEq

/-- How a call of `New` ends. -/
inductive Outcome (α : Type) where
  | returned (plugin : Option α) (err : Option String)
  | exited (code : Int)
  | panicked (msg : String)

/-- The functions `New` calls that are defined outside scheduler.go, as
parameters.  `Cfg` is `*runtime.Unknown`, `Cl` the metrics client, `Raw` the
raw topology configuration, `Obj` the objects the node informer delivers.
Methods with a pointer receiver take and return the scheduler record. -/
structure Env (Cfg H P Cl Raw FL CE Obj : Type) where
  DecodeInto : Cfg → Args → Except String Args
  NewClient : String → Except String Cl
  NewAPI : Cl → P
  initRawConfig : KubeShareScheduler H P FL CE → Raw × KubeShareScheduler H P FL CE
  watchConfig : KubeShareScheduler H P FL CE → Raw → KubeShareScheduler H P FL CE
  buildCellChains : KubeShareScheduler H P FL CE → Raw → CE × KubeShareScheduler H P FL CE
  build : CE → Raw → List LogEntry → FL × List LogEntry
  lenFL : FL → Nat
  rangeFL : FL → List (String × String)
  isGPUNode : KubeShareScheduler H P FL CE → Obj → Bool
  addNode : Obj → KubeShareScheduler H P FL CE → KubeShareScheduler H P FL CE
  WaitForCacheSync : Bool

/-- Result of `New`: how it ended, the outside calls it made and the handlers
it registered on the node informer. -/
structure NewResult (H P FL CE Obj : Type) where
  outcome : Outcome (KubeShareScheduler H P FL CE)
  steps : List Step
  handlers : List (FilteringResourceEventHandler (KubeShareScheduler H P FL CE) Obj)

section Construct

variable {Cfg H P Cl Raw FL CE Obj : Type}

/-- The handler `New` passes to `nodeInformer.AddEventHandler` (lines
147-156): the filter is `isGPUNode`, the add callback is `addNode`, the update
and delete callbacks are commented out, hence nil. -/
def nodeEventHandler (env : Env Cfg H P Cl Raw FL CE Obj) :
    FilteringResourceEventHandler (KubeShareScheduler H P FL CE) Obj :=
  { FilterFunc := env.isGPUNode
    Handler :=
      { AddFunc := some env.addNode
        UpdateFunc := none
        DeleteFunc := none } }

/-- The default arguments of lines 80-84; the other fields are zero values. -/
def defaultArgs : Args :=
  { masterURL := ""
    kubeConfig := ""
    prometheusURL := "http://prometheus-k8s.monitoring:9090"
    kubeShareConfig := configPath
    level := 3 }

/-- The loop of lines 136-138 over the free-list map. -/
def debugFreeCells (kss : KubeShareScheduler H P FL CE) (entries : List (String × String)) :
    KubeShareScheduler H P FL CE :=
  entries.foldl (fun k kv => Debugf k "%+v = %+v" [kv.1, kv.2]) kss

/-- Function `New` (lines 77-168).  The zero values of the two maps are the
default elements of `FL` and `CE`. -/
def New [Inhabited FL] [Inhabited CE] (env : Env Cfg H P Cl Raw FL CE Obj)
    (config : Cfg) (handle : H) : NewResult H P FL CE Obj :=
  match env.DecodeInto config defaultArgs with
  | Except.error err => ⟨Outcome.returned none (some err), [], []⟩
  | Except.ok args =>
    let steps1 := [Step.loggerNew args.level logPath, Step.NewClient args.prometheusURL]
    match env.NewClient args.prometheusURL with
    | Except.error _ => ⟨Outcome.exited 1, steps1 ++ [Step.Exit 1], []⟩
    | Except.ok client =>
      let promeAPI := env.NewAPI client
      let kss0 : KubeShareScheduler H P FL CE :=
        { args := args
          handle := handle
          promeAPI := promeAPI
          ksl := []
          gpuPriority := []
          sortGPUByPriority := []
          cellFreeList := default
          cellElements := default }
      let (kubeshareConfig, kss1) := env.initRawConfig kss0
      let kss2 := env.watchConfig kss1 kubeshareConfig
      let (ce, kss3) := env.buildCellChains kss2 kubeshareConfig
      let (cellFreeList, ksl4) := env.build ce kubeshareConfig kss3.ksl
      let kss4 := { kss3 with ksl := ksl4 }
      let kss5 := Debugln kss4 "=================FREE CELL================="
      let kss6 := Debugf kss5 "size of Free cell: %v" [toString (env.lenFL cellFreeList)]
      let kss7 := debugFreeCells kss6 (env.rangeFL cellFreeList)
      let kss8 := { kss7 with cellElements := ce, cellFreeList := cellFreeList }
      let steps2 := steps1 ++ [Step.NewAPI, Step.initRawConfig, Step.watchConfig,
        Step.buildCellChains, Step.newCellConstructorBuild, Step.SetupSignalHandler,
        Step.AddEventHandler, Step.RunInformer, Step.WaitForCacheSync]
      if !env.WaitForCacheSync then
        ⟨Outcome.panicked "Failed to WaitForCacheSync", steps2, [nodeEventHandler env]⟩
      else
        ⟨Outcome.returned (some kss8) none, steps2, [nodeEventHandler env]⟩

end Construct

/-! ## Cell allocation engine

The functions that read and write `cellFreeList` (the cell types, the
inventory constructor, reservation and release) are not in scheduler.go.  The
definitions below follow sections 3 and 4 of the specification.  A level is
identified by its depth in the chain of its GPU type, `0` being the coarsest.
Cells live in an arena addressed by identifiers; parent and child references
are identifiers. -/

/-- Modelled from the spec: the error taxonomy of section 7; the engine that
reports these errors is absent from the source. -/
inductive EngineError where
  | ConfigurationError
  | InventoryError
  | ReleaseError
  | InvariantViolation
deriving DecidableEq

/-- Modelled from the spec: the occupancy state of a Cell (section 3), with the
owning request identifier when Allocated; the Cell type is absent from the
source. -/
inductive CellState where
  | Free
  | Split
  | Allocated (owner : String)
deriving DecidableEq

/-- Modelled from the spec: a Cell (section 3), absent from the source: GPU
type, level, parent cell reference (none at the coarsest level), child cell
references (populated only after a split) and occupancy state. -/
structure Cell where
  gpuType : String
  level : Nat
  parent : Option Nat
  children : List Nat
  state : CellState
deriving DecidableEq

/-- Modelled from the spec: the chain structure built by the Cell Type Chain
Builder (section 4.1), absent from the source: for each GPU type the fan-outs
of its levels from coarsest to finest; a chain with `n` fan-outs has the
levels `0..n`, and a cell of level `k < n` splits into `chain[k]` cells of
level `k + 1`. -/
abbrev CellElements := List (String × List Nat)

/-- Modelled from the spec: the free-list state (section 3), whose type
`LevelCellList` is absent from the source: per GPU type and level the ordered
collection of Free cells, together with the arena of all cell records and the
next unused cell identifier. -/
structure FreeListState where
  free : String → Nat → List Nat
  cells : Nat → Option Cell
  nextId : Nat

/-- Modelled from the spec: the free-list state before any cell is
discovered. -/
def emptyState : FreeListState :=
  { free := fun _ _ => []
    cells := fun _ => none
    nextId := 0 }

instance : Inhabited FreeListState := ⟨emptyState⟩

/-- Modelled from the spec: replacing the free list of one level of one GPU
type. -/
def FreeListState.setFree (s : FreeListState) (t : String) (l : Nat) (xs : List Nat) :
    FreeListState :=
  { s with free := fun t2 l2 => if t2 = t ∧ l2 = l then xs else s.free t2 l2 }

/-- Modelled from the spec: writing the record of one cell in the arena. -/
def FreeListState.setCell (s : FreeListState) (c : Nat) (cell : Cell) : FreeListState :=
  { s with cells := Function.update s.cells c (some cell) }

/-- Modelled from the spec: marking a cell with an occupancy state. -/
def FreeListState.setState (s : FreeListState) (c : Nat) (st : CellState) : FreeListState :=
  match s.cells c with
  | some cell => s.setCell c { cell with state := st }
  | none => s

/-- Modelled from the spec: whether a cell is recorded and Free. -/
def FreeListState.isFree (s : FreeListState) (c : Nat) : Bool :=
  match s.cells c with
  | some cell => decide (cell.state = CellState.Free)
  | none => false

/-- Modelled from the spec: destroying cell records (the children removed by a
merge, section 3, lifecycle). -/
def FreeListState.removeCells (s : FreeListState) (ks : List Nat) : FreeListState :=
  { s with cells := fun i => if i ∈ ks then none else s.cells i }

/-- Modelled from the spec: the record of a discovered coarsest-level cell
(section 4.2): Free, at level `0`, without parent or children. -/
def coarseCell (t : String) : Cell :=
  { gpuType := t, level := 0, parent := none, children := [], state := CellState.Free }

/-- Modelled from the spec: the insertion step of the Cell Inventory
Constructor (section 4.2), shared with the Topology Change Listener (section
4.5): a discovered coarsest-level cell becomes a Free cell in the coarsest
free list of its GPU type. -/
def insertFreeCell (s : FreeListState) (t : String) : FreeListState :=
  { free := fun t2 l2 => if t2 = t ∧ l2 = 0 then s.free t 0 ++ [s.nextId] else s.free t2 l2
    cells := Function.update s.cells s.nextId (some (coarseCell t))
    nextId := s.nextId + 1 }

/-- Modelled from the spec: the Cell Inventory Constructor (section 4.2),
absent from the source.  `discovered` lists the GPU type of each physical
coarsest-level cell; a type without a chain is an InventoryError. -/
def buildInventory (ce : CellElements) (discovered : List String) :
    Except EngineError FreeListState :=
  discovered.foldl
    (fun acc t =>
      match acc with
      | Except.error e => Except.error e
      | Except.ok s =>
        match ce.lookup t with
        | none => Except.error EngineError.InventoryError
        | some _ => Except.ok (insertFreeCell s t))
    (Except.ok emptyState)

/-- Modelled from the spec: materializing the children of cell `p` at level
`l + 1` when they are not already materialized (TryReserve step 2, section
4.3).  Returns the child references and the new state. -/
def materialize (s : FreeListState) (t : String) (l : Nat) (p : Nat) (pc : Cell)
    (fanout : Nat) : List Nat × FreeListState :=
  if pc.children = [] then
    let kids := List.range' s.nextId fanout
    (kids,
      { s with
        cells := fun i =>
          if i = p then some { pc with children := kids }
          else if s.nextId ≤ i ∧ i < s.nextId + fanout then
            some { gpuType := t, level := l + 1, parent := some p, children := [],
                   state := CellState.Free }
          else s.cells i
        nextId := s.nextId + fanout })
  else (pc.children, s)

/-- Modelled from the spec: the split of TryReserve step 2 (section 4.3): the
children of `p` are materialized, `p` is marked Split, all children except the
returned one enter the free list of level `l + 1`, the returned child is
marked Allocated. -/
def splitCell (ch : List Nat) (t : String) (owner : String) (l : Nat) (p : Nat)
    (s : FreeListState) : Option (Nat × FreeListState) :=
  match s.cells p with
  | none => none
  | some pc =>
    match materialize s t l p pc (ch.getD l 0) with
    | (kids, s1) =>
      match kids with
      | [] => none
      | c :: rest =>
        let s2 := s1.setState p CellState.Split
        let s3 := s2.setFree t (l + 1) (s2.free t (l + 1) ++ rest)
        some (c, s3.setState c (CellState.Allocated owner))

/-- Modelled from the spec: steps 1 to 3 of TryReserve (section 4.3) at a
level of a known chain.  Step 1 takes the first cell of the free list
(first-available by insertion order) and marks it Allocated; step 2 recurses
to the next coarser level and splits the cell obtained; the recursion bottoms
out at level `0`. -/
def reserveAt (ch : List Nat) (t : String) (owner : String) :
    Nat → FreeListState → Option (Nat × FreeListState)
  | 0, s =>
    match s.free t 0 with
    | c :: rest => some (c, (s.setFree t 0 rest).setState c (CellState.Allocated owner))
    | [] => none
  | l + 1, s =>
    match s.free t (l + 1) with
    | c :: rest => some (c, (s.setFree t (l + 1) rest).setState c (CellState.Allocated owner))
    | [] =>
      match reserveAt ch t owner l s with
      | none => none
      | some (p, s1) => splitCell ch t owner l p s1

/-- Modelled from the spec: operation TryReserve (section 4.3), absent from
the source.  The result is the reserved cell, or none when the request cannot
currently be satisfied, or an InvariantViolation for an unknown GPU type or
level; the state is unchanged unless a cell is reserved. -/
def TryReserve (ce : CellElements) (s : FreeListState) (gpuType : String)
    (requestedLevel : Nat) (requesterID : String) :
    Except EngineError (Option Nat) × FreeListState :=
  match ce.lookup gpuType with
  | none => (Except.error EngineError.InvariantViolation, s)
  | some ch =>
    if ch.length < requestedLevel then (Except.error EngineError.InvariantViolation, s)
    else
      match reserveAt ch gpuType requesterID requestedLevel s with
      | some (c, s1) => (Except.ok (some c), s1)
      | none => (Except.ok none, s)

/-- Modelled from the spec: one merge of Release (section 4.3): the children
of the parent `p` (the siblings of the cell recorded as `cell`) leave the
finer free list and are destroyed, the parent is marked Free and enters the
free list of its own level. -/
def mergeStep (s : FreeListState) (cell : Cell) (p : Nat) (pc : Cell) : FreeListState :=
  let s1 := s.setFree cell.gpuType cell.level
    ((s.free cell.gpuType cell.level).filter (fun x => !pc.children.contains x))
  let s2 := s1.removeCells pc.children
  let s3 := s2.setCell p { pc with state := CellState.Free, children := [] }
  s3.setFree pc.gpuType pc.level (s3.free pc.gpuType pc.level ++ [p])

/-- Modelled from the spec: the merge check of Release (section 4.3) for cell
`c`: if its parent exists and every sibling is Free, the siblings are merged
into the parent and the check recurses one level up.  The first argument
bounds the number of levels climbed; Release passes the level of the released
cell, which is enough (see `mergeUp_fuel_enough`). -/
def mergeUp : Nat → FreeListState → Nat → FreeListState
  | 0, s, _ => s
  | fuel + 1, s, c =>
    match s.cells c with
    | none => s
    | some cell =>
      match cell.parent with
      | none => s
      | some p =>
        match s.cells p with
        | none => s
        | some pc =>
          if pc.children.all s.isFree then mergeUp fuel (mergeStep s cell p pc) p
          else s

/-- Modelled from the spec: the state after a successful Release of cell `c`
of GPU type `t` and level `l`: marked Free, reinserted into the free list of
its level, then the merge check. -/
def releaseState (s : FreeListState) (t : String) (l : Nat) (c : Nat) : FreeListState :=
  let s1 := s.setState c CellState.Free
  mergeUp l (s1.setFree t l (s1.free t l ++ [c])) c

/-- Modelled from the spec: operation Release (section 4.3), absent from the
source.  A cell that is not currently Allocated (already Free, Split or
unknown) gives a ReleaseError and no change. -/
def Release (s : FreeListState) (c : Nat) : Except EngineError Unit × FreeListState :=
  match s.cells c with
  | none => (Except.error EngineError.ReleaseError, s)
  | some cell =>
    match cell.state with
    | CellState.Allocated _ => (Except.ok (), releaseState s cell.gpuType cell.level c)
    | _ => (Except.error EngineError.ReleaseError, s)

/-- Modelled from the spec: operation Inspect (section 4.3): the count of
currently Free cells of a level. -/
def Inspect (s : FreeListState) (gpuType : String) (level : Nat) : Nat :=
  (s.free gpuType level).length

/-- Modelled from the spec: an operation of the engine that changes the
free-list state. -/
inductive Op where
  | reserve (gpuType : String) (level : Nat) (requester : String)
  | release (cell : Nat)
deriving DecidableEq

/-- Modelled from the spec: the state after one operation. -/
def step (ce : CellElements) (s : FreeListState) : Op → FreeListState
  | Op.reserve t l r => (TryReserve ce s t l r).2
  | Op.release c => (Release s c).2

/-- Modelled from the spec: the state after a finite sequence of
operations. -/
def run (ce : CellElements) (s : FreeListState) (ops : List Op) : FreeListState :=
  ops.foldl (step ce) s

/-- Modelled from the spec: the capacity of one cell of a level in
coarsest-level units: a coarsest cell is `1`, each split divides by the
fan-out. -/
def cellCapacity (ch : List Nat) (level : Nat) : ℚ :=
  1 / ((ch.take level).prod : ℚ)

/-- Modelled from the spec: the capacity a cell record stands for.  A Split
cell is represented by its children and counts nothing itself. -/
def cellWeight (ce : CellElements) (c : Cell) : ℚ :=
  match c.state with
  | CellState.Split => 0
  | _ =>
    match ce.lookup c.gpuType with
    | some ch => cellCapacity ch c.level
    | none => 0

/-- Modelled from the spec: the weight of an arena slot. -/
def slotWeight (ce : CellElements) (o : Option Cell) : ℚ :=
  match o with
  | some c => cellWeight ce c
  | none => 0

/-- Modelled from the spec: total capacity of all cells at all levels in
coarsest-level units (section 8, Conservation). -/
def totalCapacity (ce : CellElements) (s : FreeListState) : ℚ :=
  ∑ i in Finset.range s.nextId, slotWeight ce (s.cells i)

/-! ## The scheduler over the modelled engine -/

/-- The scheduler record with the free-list map and the cell elements of the
modelled engine; the framework handle and the metrics client carry nothing. -/
abbrev Scheduler := KubeShareScheduler Unit Unit FreeListState CellElements

/-- Modelled from the spec: the data of a node event (section 6): the node
identifier and the GPU type of each physical GPU the node carries; the node
type and its accessors are absent from the source. -/
structure NodeObj where
  name : String
  gpus : List String
deriving DecidableEq

/-- Modelled from the spec: the GPU-node predicate `isGPUNode` (section 4.5),
absent from the source: the node carries GPU capacity. -/
def isGPUNode (_kss : Scheduler) (node : NodeObj) : Bool :=
  !node.gpus.isEmpty

/-- Modelled from the spec: the callback `addNode` (section 4.5), absent from
the source: each physical cell of the node whose GPU type has a chain is
inserted as a Free coarsest-level cell. -/
def addNode (node : NodeObj) (kss : Scheduler) : Scheduler :=
  { kss with
    cellFreeList := node.gpus.foldl
      (fun s t => if (kss.cellElements.lookup t).isSome then insertFreeCell s t else s)
      kss.cellFreeList }

/-- Agreement of two scheduler records on the allocation fields
`cellFreeList`, `cellElements`, `gpuPriority` and `sortGPUByPriority`. -/
def sameAllocation {H P FL CE : Type} (a b : KubeShareScheduler H P FL CE) : Prop :=
  a.cellFreeList = b.cellFreeList ∧ a.cellElements = b.cellElements ∧
    a.gpuPriority = b.gpuPriority ∧ a.sortGPUByPriority = b.sortGPUByPriority

/-! ## Sample inputs -/

/-- The chain `gpu → half → quarter` with fan-out 2 at each step, for the GPU
type named `gpu`. -/
def sampleChains : CellElements := [("gpu", [2, 2])]

/-- The inventory with one physical gpu cell. -/
def sampleState : FreeListState := insertFreeCell emptyState "gpu"

/-- A scheduler whose free-list state holds one Free gpu cell. -/
def sampleScheduler : Scheduler :=
  { args := defaultArgs
    handle := ()
    promeAPI := ()
    ksl := []
    gpuPriority := [("gpu", 1)]
    sortGPUByPriority := ["gpu"]
    cellFreeList := sampleState
    cellElements := sampleChains }

/-- A scheduler in which the gpu cell is Allocated to the pod `uid-1`. -/
def reservedScheduler : Scheduler :=
  { sampleScheduler with
    cellFreeList := (TryReserve sampleChains sampleState "gpu" 0 "uid-1").2 }

/-- A scheduler with the sample chains and no discovered cell. -/
def emptyScheduler : Scheduler :=
  { sampleScheduler with cellFreeList := emptyState }

/-- A pod. -/
def samplePod : Pod :=
  { Namespace := "default", Name := "job", UID := "uid-1", NodeName := "node-1" }

/-- A node without GPU. -/
def plainNode : NodeObj := { name := "node-1", gpus := [] }

/-- The same node carrying one gpu. -/
def gpuNode : NodeObj := { name := "node-1", gpus := ["gpu"] }

/-- An environment of `New` over the modelled engine: decoding fails on an
empty configuration, the topology is the sample chain with one gpu cell, the
node callbacks are the modelled `isGPUNode` and `addNode`. -/
def sampleEnv : Env String Unit Unit Unit Unit FreeListState CellElements NodeObj :=
  { DecodeInto := fun cfg args =>
      if cfg = "" then Except.error "unexpected end of JSON input"
      else Except.ok { args with kubeShareConfig := cfg }
    NewClient := fun _ => Except.ok ()
    NewAPI := fun _ => ()
    initRawConfig := fun kss => ((), kss)
    watchConfig := fun kss _ => kss
    buildCellChains := fun kss _ => (sampleChains, kss)
    build := fun _ _ ksl => (sampleState, ksl)
    lenFL := fun _ => 1
    rangeFL := fun _ => [("gpu", "[0]")]
    isGPUNode := isGPUNode
    addNode := addNode
    WaitForCacheSync := true }

/-- Modelled from the spec: the record of a child created by a split of cell
`p` of level `l` (TryReserve step 2): Free, one level finer, pointing back to
`p`. -/
def kidCell (t : String) (l : Nat) (p : Nat) : Cell :=
  { gpuType := t, level := l + 1, parent := some p, children := [], state := CellState.Free }

/-- Modelled from the spec: closed form of the state right after cell `p`
(recorded as `pc`, without children) got `f` fresh children and was marked
Split; `splitCell` passes through this state (see `splitCell_eq`). -/
def splitState (s : FreeListState) (t : String) (l : Nat) (p : Nat) (pc : Cell) (f : Nat) :
    FreeListState :=
  { free := s.free
    cells := fun i =>
      if i = p then
        some { pc with children := List.range' s.nextId f, state := CellState.Split }
      else if s.nextId ≤ i ∧ i < s.nextId + f then some (kidCell t l p)
      else s.cells i
    nextId := s.nextId + f }

/-- Modelled from the spec: the invariants of the data model (section 3) on a
free-list state: identifiers at or above `nextId` are unused; a cell in a free
list is recorded, Free, and of that list's GPU type and level; a free list
holds a cell at most once; a cell that is not Split has no children; a Split
cell has as many children as its chain's fan-out, all recorded one level finer
and pointing back to it; the parent of a recorded cell is recorded and Split
and lists the cell as a child. -/
structure WF (ce : CellElements) (s : FreeListState) : Prop where
  bound : ∀ i, s.nextId ≤ i → s.cells i = none
  freeOK : ∀ t l c, c ∈ s.free t l →
    ∃ cell, s.cells c = some cell ∧ cell.state = CellState.Free ∧ cell.level = l ∧
      cell.gpuType = t
  freeNodup : ∀ t l, (s.free t l).Nodup
  leaf : ∀ i cell, s.cells i = some cell → cell.state ≠ CellState.Split → cell.children = []
  split : ∀ i cell, s.cells i = some cell → cell.state = CellState.Split →
    ∃ ch, ce.lookup cell.gpuType = some ch ∧ cell.level < ch.length ∧
      cell.children.length = ch.getD cell.level 0 ∧ cell.children.Nodup ∧
      ∀ k ∈ cell.children, ∃ kc, s.cells k = some kc ∧ kc.level = cell.level + 1 ∧
        kc.gpuType = cell.gpuType ∧ kc.parent = some i
  parent : ∀ i cell p, s.cells i = some cell → cell.parent = some p →
    ∃ pc, s.cells p = some pc ∧ pc.state = CellState.Split ∧ i ∈ pc.children

/-! ## Properties -/

section EngineLemmas

@[simp] theorem setFree_free (s : FreeListState) (t : String) (l : Nat) (xs : List Nat)
    (t2 : String) (l2 : Nat) :
    (s.setFree t l xs).free t2 l2 = if t2 = t ∧ l2 = l then xs else s.free t2 l2 := rfl

@[simp] theorem setFree_cells (s : FreeListState) (t : String) (l : Nat) (xs : List Nat) :
    (s.setFree t l xs).cells = s.cells := rfl

@[simp] theorem setFree_nextId (s : FreeListState) (t : String) (l : Nat) (xs : List Nat) :
    (s.setFree t l xs).nextId = s.nextId := rfl

@[simp] theorem setCell_free (s : FreeListState) (c : Nat) (cell : Cell) :
    (s.setCell c cell).free = s.free := rfl

@[simp] theorem setCell_cells (s : FreeListState) (c : Nat) (cell : Cell) :
    (s.setCell c cell).cells = Function.update s.cells c (some cell) := rfl

@[simp] theorem setCell_nextId (s : FreeListState) (c : Nat) (cell : Cell) :
    (s.setCell c cell).nextId = s.nextId := rfl

theorem setState_of_some (s : FreeListState) (c : Nat) (st : CellState) (cell : Cell)
    (h : s.cells c = some cell) :
    s.setState c st = s.setCell c { cell with state := st } := by
  simp [FreeListState.setState, h]

theorem lt_nextId_of_some {ce : CellElements} {s : FreeListState} (hw : WF ce s) {i : Nat}
    {cell : Cell} (h : s.cells i = some cell) : i < s.nextId := by
  by_contra hlt
  have := hw.bound i (Nat.le_of_not_lt hlt)
  rw [this] at h
  cases h

/-- Replacing one free list by cells that are recorded, Free and of the right
type and level keeps the invariants. -/
theorem WF_setFree {ce : CellElements} {s : FreeListState} (hw : WF ce s) (t : String)
    (l : Nat) (xs : List Nat) (hnd : xs.Nodup)
    (hxs : ∀ c ∈ xs, ∃ cell, s.cells c = some cell ∧ cell.state = CellState.Free ∧
      cell.level = l ∧ cell.gpuType = t) :
    WF ce (s.setFree t l xs) := by
  refine ⟨hw.bound, ?_, ?_, hw.leaf, hw.split, hw.parent⟩
  · intro t2 l2 c hc
    simp only [setFree_free] at hc
    split at hc
    · rename_i h
      obtain ⟨rfl, rfl⟩ := h
      exact hxs c hc
    · exact hw.freeOK t2 l2 c hc
  · intro t2 l2
    simp only [setFree_free]
    split
    · exact hnd
    · exact hw.freeNodup t2 l2

/-- A recorded cell that is in no free list may change between states other
than Split. -/
theorem WF_setCell_leaf {ce : CellElements} {s : FreeListState} (hw : WF ce s) (c : Nat)
    (cell : Cell) (st : CellState) (hc : s.cells c = some cell)
    (hcs : cell.state ≠ CellState.Split) (hst : st ≠ CellState.Split)
    (hfree : ∀ t l, c ∉ s.free t l) :
    WF ce (s.setCell c { cell with state := st }) := by
  have hkey : ∀ i x, (s.setCell c { cell with state := st }).cells i = some x →
      ∃ y, s.cells i = some y ∧ x.level = y.level ∧ x.gpuType = y.gpuType ∧
        x.parent = y.parent ∧ x.children = y.children ∧
        (i ≠ c → x = y) ∧ (i = c → x.state = st ∧ y = cell) := by
    intro i x hx
    simp only [setCell_cells] at hx
    by_cases hic : i = c
    · subst hic
      simp only [Function.update_same, Option.some.injEq] at hx
      subst hx
      exact ⟨cell, hc, rfl, rfl, rfl, rfl, fun h => absurd rfl h, fun _ => ⟨rfl, rfl⟩⟩
    · rw [Function.update_noteq hic] at hx
      exact ⟨x, hx, rfl, rfl, rfl, rfl, fun _ => rfl, fun h => absurd h hic⟩
  have hback : ∀ i y, s.cells i = some y →
      ∃ x, (s.setCell c { cell with state := st }).cells i = some x ∧ x.level = y.level ∧
        x.gpuType = y.gpuType ∧ x.parent = y.parent ∧ x.children = y.children ∧
        (i ≠ c → x = y) := by
    intro i y hy
    simp only [setCell_cells]
    by_cases hic : i = c
    · subst hic
      rw [hc] at hy
      cases hy
      exact ⟨_, Function.update_same _ _ _, rfl, rfl, rfl, rfl, fun h => absurd rfl h⟩
    · rw [Function.update_noteq hic]
      exact ⟨y, hy, rfl, rfl, rfl, rfl, fun _ => rfl⟩
  refine ⟨?_, ?_, hw.freeNodup, ?_, ?_, ?_⟩
  · intro i hi
    simp only [setCell_cells, setCell_nextId] at hi ⊢
    have hcn : c < s.nextId := lt_nextId_of_some hw hc
    rw [Function.update_noteq (by omega)]
    exact hw.bound i hi
  · intro t l k hk
    simp only [setCell_free] at hk
    obtain ⟨y, hy, h1, h2, h3⟩ := hw.freeOK t l k hk
    have hkc : k ≠ c := fun h => hfree t l (h ▸ hk)
    obtain ⟨x, hx, _, _, _, _, hxy⟩ := hback k y hy
    exact ⟨x, hx, by rw [hxy hkc]; exact ⟨h1, h2, h3⟩⟩
  · intro i x hx hxs
    obtain ⟨y, hy, _, _, _, hch, hne, heq⟩ := hkey i x hx
    rw [hch]
    by_cases hic : i = c
    · rw [(heq hic).2]
      exact hw.leaf c cell hc hcs
    · apply hw.leaf i y hy
      rw [← hne hic]
      exact hxs
  · intro i x hx hxs
    obtain ⟨y, hy, hl, ht, _, hch, hne, heq⟩ := hkey i x hx
    have hic : i ≠ c := fun h => hst ((heq h).1 ▸ hxs)
    have hxy := hne hic
    subst hxy
    obtain ⟨ch, h1, h2, h3, h4, h5⟩ := hw.split i x hy hxs
    refine ⟨ch, h1, h2, h3, h4, ?_⟩
    intro k hk
    obtain ⟨kc, hkc, h6, h7, h8⟩ := h5 k hk
    obtain ⟨kx, hkx, e1, e2, e3, _, _⟩ := hback k kc hkc
    exact ⟨kx, hkx, by rw [e1, h6], by rw [e2, h7], by rw [e3, h8]⟩
  · intro i x p hx hxp
    obtain ⟨y, hy, _, _, hpar, _, _, _⟩ := hkey i x hx
    rw [hpar] at hxp
    obtain ⟨pc, hpc, hps, hmem⟩ := hw.parent i y p hy hxp
    have hpne : p ≠ c := by
      intro h
      subst h
      rw [hc] at hpc
      cases hpc
      exact hcs hps
    obtain ⟨px, hpx, _, _, _, _, hpe⟩ := hback p pc hpc
    exact ⟨px, hpx, by rw [hpe hpne]; exact ⟨hps, hmem⟩⟩

theorem capacity_setFree (ce : CellElements) (s : FreeListState) (t : String) (l : Nat)
    (xs : List Nat) : totalCapacity ce (s.setFree t l xs) = totalCapacity ce s := rfl

theorem capacity_setCell (ce : CellElements) (s : FreeListState) (c : Nat) (cell : Cell)
    (hc : c < s.nextId) :
    totalCapacity ce (s.setCell c cell) =
      totalCapacity ce s - slotWeight ce (s.cells c) + cellWeight ce cell := by
  unfold totalCapacity
  simp only [setCell_cells, setCell_nextId]
  have hmem : c ∈ Finset.range s.nextId := Finset.mem_range.2 hc
  have h1 := Finset.add_sum_erase (Finset.range s.nextId)
    (fun i => slotWeight ce (s.cells i)) hmem
  have h2 := Finset.add_sum_erase (Finset.range s.nextId)
    (fun i => slotWeight ce (Function.update s.cells c (some cell) i)) hmem
  have h3 : ∑ i in (Finset.range s.nextId).erase c,
        slotWeight ce (Function.update s.cells c (some cell) i) =
      ∑ i in (Finset.range s.nextId).erase c, slotWeight ce (s.cells i) := by
    apply Finset.sum_congr rfl
    intro i hi
    rw [Function.update_noteq (Finset.ne_of_mem_erase hi)]
  simp only [Function.update_same] at h2
  rw [h3] at h2
  have h4 : slotWeight ce (some cell) = cellWeight ce cell := rfl
  rw [h4] at h2
  linarith

/-- A cell whose state stays Free or Allocated keeps its weight. -/
theorem cellWeight_setState (ce : CellElements) (cell : Cell) (st : CellState)
    (h1 : cell.state ≠ CellState.Split) (h2 : st ≠ CellState.Split) :
    cellWeight ce { cell with state := st } = cellWeight ce cell := by
  unfold cellWeight
  cases hs : cell.state <;> cases st <;> simp_all

theorem capacity_setCell_leaf {ce : CellElements} {s : FreeListState} (hw : WF ce s)
    (c : Nat) (cell : Cell) (st : CellState) (hc : s.cells c = some cell)
    (h1 : cell.state ≠ CellState.Split) (h2 : st ≠ CellState.Split) :
    totalCapacity ce (s.setCell c { cell with state := st }) = totalCapacity ce s := by
  rw [capacity_setCell ce s c _ (lt_nextId_of_some hw hc), hc, cellWeight_setState ce cell st h1 h2]
  simp [slotWeight]

/-- One split step divides the capacity of a cell by the fan-out. -/
theorem cellCapacity_succ (ch : List Nat) (l : Nat) (hl : l < ch.length)
    (hf : ch.getD l 0 ≠ 0) :
    cellCapacity ch l = (ch.getD l 0 : ℚ) * cellCapacity ch (l + 1) := by
  unfold cellCapacity
  have hget : ch.getD l 0 = ch[l] := by
    simp [List.getD_eq_getElem?_getD, List.getElem?_eq_getElem hl]
  rw [hget] at hf ⊢
  have htake : ch.take (l + 1) = ch.take l ++ [ch[l]] := by
    rw [List.take_succ, List.getElem?_eq_getElem hl]
    rfl
  rw [htake, List.prod_append, List.prod_singleton, Nat.cast_mul]
  have hq : (ch[l] : ℚ) ≠ 0 := by exact_mod_cast hf
  generalize ((ch.take l).prod : ℚ) = P
  generalize (ch[l] : ℚ) = F at hq
  rw [one_div, one_div, mul_inv, mul_comm P⁻¹ F⁻¹, ← mul_assoc, mul_inv_cancel₀ hq, one_mul]

theorem splitState_cells_parent (s : FreeListState) (t : String) (l p : Nat) (pc : Cell)
    (f : Nat) :
    (splitState s t l p pc f).cells p =
      some { pc with children := List.range' s.nextId f, state := CellState.Split } := by
  simp [splitState]

theorem splitState_cells_kid (s : FreeListState) (t : String) (l p : Nat) (pc : Cell)
    (f : Nat) (k : Nat) (hp : p < s.nextId) (h1 : s.nextId ≤ k) (h2 : k < s.nextId + f) :
    (splitState s t l p pc f).cells k = some (kidCell t l p) := by
  have hkp : k ≠ p := by omega
  simp [splitState, hkp, h1, h2]

theorem splitState_cells_old (s : FreeListState) (t : String) (l p : Nat) (pc : Cell)
    (f : Nat) (i : Nat) (hip : i ≠ p) (hi : i < s.nextId) :
    (splitState s t l p pc f).cells i = s.cells i := by
  have : ¬ (s.nextId ≤ i ∧ i < s.nextId + f) := by omega
  simp [splitState, hip, this]

theorem splitState_cases {ce : CellElements} {s : FreeListState} (hw : WF ce s) (t : String)
    (l p : Nat) (pc : Cell) (f : Nat) (i : Nat) (x : Cell)
    (hx : (splitState s t l p pc f).cells i = some x) :
    (i = p ∧ x = { pc with children := List.range' s.nextId f, state := CellState.Split }) ∨
    (i ≠ p ∧ s.nextId ≤ i ∧ i < s.nextId + f ∧ x = kidCell t l p) ∨
    (i ≠ p ∧ i < s.nextId ∧ s.cells i = some x) := by
  by_cases hip : i = p
  · left
    subst hip
    rw [splitState_cells_parent] at hx
    exact ⟨rfl, (Option.some.inj hx).symm⟩
  · right
    by_cases hr : s.nextId ≤ i ∧ i < s.nextId + f
    · left
      simp only [splitState, hip, hr, and_self, if_true, if_false] at hx
      exact ⟨hip, hr.1, hr.2, (Option.some.inj hx).symm⟩
    · right
      simp only [splitState, hip, hr, if_false] at hx
      exact ⟨hip, lt_nextId_of_some hw hx, hx⟩

/-- Splitting an Allocated cell of a known chain keeps the invariants. -/
theorem WF_splitState {ce : CellElements} {s : FreeListState} (hw : WF ce s) (t : String)
    (l p : Nat) (pc : Cell) (ch : List Nat) (owner : String)
    (hp : s.cells p = some pc) (hst : pc.state = CellState.Allocated owner)
    (hlev : pc.level = l) (hty : pc.gpuType = t) (hch : ce.lookup t = some ch)
    (hl : l < ch.length) :
    WF ce (splitState s t l p pc (ch.getD l 0)) := by
  have hpn : p < s.nextId := lt_nextId_of_some hw hp
  have hpns : pc.state ≠ CellState.Split := by rw [hst]; exact fun h => CellState.noConfusion h
  have hold : ∀ i y, s.cells i = some y → i ≠ p →
      (splitState s t l p pc (ch.getD l 0)).cells i = some y := by
    intro i y hy hip
    rw [splitState_cells_old s t l p pc _ i hip (lt_nextId_of_some hw hy)]
    exact hy
  refine ⟨?_, ?_, hw.freeNodup, ?_, ?_, ?_⟩
  · intro i hi
    have hi2 : s.nextId + ch.getD l 0 ≤ i := hi
    have hip : i ≠ p := by omega
    have hr : ¬ (s.nextId ≤ i ∧ i < s.nextId + ch.getD l 0) := by omega
    simp only [splitState, hip, hr, if_false]
    exact hw.bound i (by omega)
  · intro t2 l2 c hc
    obtain ⟨y, hy, h1, h2, h3⟩ := hw.freeOK t2 l2 c hc
    have hcp : c ≠ p := by
      intro h
      subst h
      rw [hp] at hy
      cases hy
      rw [hst] at h1
      cases h1
    exact ⟨y, hold c y hy hcp, h1, h2, h3⟩
  · intro i x hx hxs
    rcases splitState_cases hw t l p pc _ i x hx with ⟨_, rfl⟩ | ⟨_, _, _, rfl⟩ | ⟨_, _, h⟩
    · exact absurd rfl hxs
    · rfl
    · exact hw.leaf i x h hxs
  · intro i x hx hxs
    rcases splitState_cases hw t l p pc _ i x hx with ⟨rfl, rfl⟩ | ⟨_, _, _, rfl⟩ | ⟨hip, _, h⟩
    · refine ⟨ch, by simpa [hty] using hch, by simpa [hlev] using hl, ?_, ?_, ?_⟩
      · simp [hlev]
      · exact List.nodup_range' _ _
      · intro k hk
        have hk2 : s.nextId ≤ k ∧ k < s.nextId + ch.getD l 0 := by
          simpa [List.mem_range'_1] using hk
        refine ⟨kidCell t l i, splitState_cells_kid s t l i pc _ k hpn hk2.1 hk2.2, ?_, ?_, rfl⟩
        · simp [kidCell, hlev]
        · simp [kidCell, hty]
    · exact absurd hxs (by simp [kidCell])
    · obtain ⟨ch2, h1, h2, h3, h4, h5⟩ := hw.split i x h hxs
      refine ⟨ch2, h1, h2, h3, h4, ?_⟩
      intro k hk
      obtain ⟨kc, hkc, h6, h7, h8⟩ := h5 k hk
      by_cases hkp : k = p
      · subst hkp
        rw [hp] at hkc
        cases hkc
        exact ⟨_, splitState_cells_parent s t l k pc _, h6, h7, h8⟩
      · exact ⟨kc, hold k kc hkc hkp, h6, h7, h8⟩
  · intro i x q hx hxq
    have hqold : ∀ j y, s.cells j = some y → y.parent = some q →
        ∃ qc, (splitState s t l p pc (ch.getD l 0)).cells q = some qc ∧
          qc.state = CellState.Split ∧ j ∈ qc.children := by
      intro j y hy hyq
      obtain ⟨qc, hqc, hqs, hmem⟩ := hw.parent j y q hy hyq
      have hqp : q ≠ p := by
        intro h
        subst h
        rw [hp] at hqc
        cases hqc
        exact hpns hqs
      exact ⟨qc, hold q qc hqc hqp, hqs, hmem⟩
    rcases splitState_cases hw t l p pc _ i x hx with ⟨rfl, rfl⟩ | ⟨_, h1, h2, rfl⟩ | ⟨_, _, h⟩
    · exact hqold i pc hp hxq
    · simp only [kidCell, Option.some.injEq] at hxq
      subst hxq
      exact ⟨_, splitState_cells_parent s t l p pc _, rfl, List.mem_range'_1.2 ⟨h1, h2⟩⟩
    · exact hqold i x h hxq

theorem capacity_splitState {ce : CellElements} {s : FreeListState} (hw : WF ce s)
    (t : String) (l p : Nat) (pc : Cell) (ch : List Nat) (owner : String)
    (hp : s.cells p = some pc) (hst : pc.state = CellState.Allocated owner)
    (hlev : pc.level = l) (hty : pc.gpuType = t) (hch : ce.lookup t = some ch)
    (hl : l < ch.length) (hf : ch.getD l 0 ≠ 0) :
    totalCapacity ce (splitState s t l p pc (ch.getD l 0)) = totalCapacity ce s := by
  have hpn : p < s.nextId := lt_nextId_of_some hw hp
  unfold totalCapacity
  have hn : (splitState s t l p pc (ch.getD l 0)).nextId = s.nextId + ch.getD l 0 := rfl
  rw [hn, Finset.sum_range_add]
  have hkids : ∑ x in Finset.range (ch.getD l 0),
      slotWeight ce ((splitState s t l p pc (ch.getD l 0)).cells (s.nextId + x)) =
      (ch.getD l 0 : ℚ) * cellCapacity ch (l + 1) := by
    rw [Finset.sum_congr rfl (g := fun _ => cellCapacity ch (l + 1))]
    · simp
    · intro x hx
      have hx2 := Finset.mem_range.1 hx
      rw [splitState_cells_kid s t l p pc _ _ hpn (by omega) (by omega)]
      simp [slotWeight, cellWeight, kidCell, hch]
  have hold : ∑ x in Finset.range s.nextId,
      slotWeight ce ((splitState s t l p pc (ch.getD l 0)).cells x) =
      ∑ x in Finset.range s.nextId, slotWeight ce (s.cells x) - cellCapacity ch l := by
    have hmem : p ∈ Finset.range s.nextId := Finset.mem_range.2 hpn
    have h1 := Finset.add_sum_erase (Finset.range s.nextId)
      (fun i => slotWeight ce (s.cells i)) hmem
    have h2 := Finset.add_sum_erase (Finset.range s.nextId)
      (fun i => slotWeight ce ((splitState s t l p pc (ch.getD l 0)).cells i)) hmem
    have h3 : ∑ i in (Finset.range s.nextId).erase p,
          slotWeight ce ((splitState s t l p pc (ch.getD l 0)).cells i) =
        ∑ i in (Finset.range s.nextId).erase p, slotWeight ce (s.cells i) := by
      apply Finset.sum_congr rfl
      intro i hi
      rw [splitState_cells_old s t l p pc _ i (Finset.ne_of_mem_erase hi)
        (Finset.mem_range.1 (Finset.mem_of_mem_erase hi))]
    beta_reduce at h1 h2
    rw [splitState_cells_parent, h3] at h2
    have h4 : slotWeight ce
        (some { pc with children := List.range' s.nextId (ch.getD l 0),
                        state := CellState.Split }) = 0 := by
      simp [slotWeight, cellWeight]
    have h5 : slotWeight ce (s.cells p) = cellCapacity ch l := by
      rw [hp]
      simp [slotWeight, cellWeight, hst, hty, hch, hlev]
    rw [h4] at h2
    rw [h5] at h1
    linarith
  rw [hkids, hold, cellCapacity_succ ch l hl hf]
  ring

theorem splitCell_zero (ch : List Nat) (t owner : String) (l p : Nat) (s : FreeListState)
    (pc : Cell) (hp : s.cells p = some pc) (hkids : pc.children = [])
    (hf : ch.getD l 0 = 0) : splitCell ch t owner l p s = none := by
  unfold splitCell
  rw [hp]
  dsimp only
  rw [hf]
  simp [materialize, hkids]

/-- Closed form of a successful split: the first fresh identifier is the
returned child, the other children enter the free list of the finer level. -/
theorem splitCell_eq (ch : List Nat) (t owner : String) (l p : Nat) (s : FreeListState)
    (pc : Cell) (hp : s.cells p = some pc) (hkids : pc.children = [])
    (hpn : p < s.nextId) (hf : ch.getD l 0 ≠ 0) :
    splitCell ch t owner l p s =
      some (s.nextId,
        ((splitState s t l p pc (ch.getD l 0)).setFree t (l + 1)
          (s.free t (l + 1) ++ List.range' (s.nextId + 1) (ch.getD l 0 - 1))).setCell s.nextId
            { kidCell t l p with state := CellState.Allocated owner }) := by
  obtain ⟨f, hf2⟩ := Nat.exists_eq_succ_of_ne_zero hf
  have hsplit : ({ s with
        cells := fun i =>
          if i = p then some { pc with children := List.range' s.nextId (f + 1) }
          else if s.nextId ≤ i ∧ i < s.nextId + (f + 1) then
            some { gpuType := t, level := l + 1, parent := some p, children := [],
                   state := CellState.Free }
          else s.cells i
        nextId := s.nextId + (f + 1) } : FreeListState).setState p CellState.Split =
      splitState s t l p pc (f + 1) := by
    simp only [FreeListState.setState, if_true, FreeListState.setCell, splitState]
    congr 1
    funext i
    by_cases hip : i = p
    · subst hip
      simp
    · simp [Function.update_noteq hip, hip, kidCell]
  have hkid : (splitState s t l p pc (f + 1)).cells s.nextId = some (kidCell t l p) :=
    splitState_cells_kid s t l p pc _ _ hpn (le_refl _) (by omega)
  unfold splitCell
  rw [hp]
  dsimp only
  rw [hf2]
  simp only [materialize, hkids, if_true, List.range'_succ]
  rw [List.range'_succ] at hsplit
  rw [hsplit]
  have hkid2 : ((splitState s t l p pc (f + 1)).setFree t (l + 1)
      ((splitState s t l p pc (f + 1)).free t (l + 1) ++ List.range' (s.nextId + 1) f)).cells
        s.nextId = some (kidCell t l p) := hkid
  rw [setState_of_some _ _ _ _ hkid2]
  rfl

/-- Step 1 of TryReserve: taking the head of a free list and marking it
Allocated keeps the invariants and the capacity. -/
theorem pop_spec {ce : CellElements} {s : FreeListState} (hw : WF ce s) (t owner : String)
    (l c : Nat) (rest : List Nat) (hfree : s.free t l = c :: rest) :
    WF ce ((s.setFree t l rest).setState c (CellState.Allocated owner)) ∧
    totalCapacity ce ((s.setFree t l rest).setState c (CellState.Allocated owner)) =
      totalCapacity ce s ∧
    ∃ cell, ((s.setFree t l rest).setState c (CellState.Allocated owner)).cells c = some cell ∧
      cell.state = CellState.Allocated owner ∧ cell.level = l ∧ cell.gpuType = t := by
  have hcmem : c ∈ s.free t l := by rw [hfree]; exact List.mem_cons_self _ _
  obtain ⟨y, hy, hys, hyl, hyt⟩ := hw.freeOK t l c hcmem
  have hnd : (c :: rest).Nodup := hfree ▸ hw.freeNodup t l
  have hw1 : WF ce (s.setFree t l rest) := by
    apply WF_setFree hw t l rest (List.nodup_cons.1 hnd).2
    intro k hk
    exact hw.freeOK t l k (by rw [hfree]; exact List.mem_cons_of_mem _ hk)
  have hy1 : (s.setFree t l rest).cells c = some y := hy
  have hns : y.state ≠ CellState.Split := by rw [hys]; exact fun h => CellState.noConfusion h
  have hna : CellState.Allocated owner ≠ CellState.Split := fun h => CellState.noConfusion h
  rw [setState_of_some _ _ _ _ hy1]
  refine ⟨?_, ?_, ?_⟩
  · apply WF_setCell_leaf hw1 c y _ hy1 hns hna
    intro t2 l2 hmem
    simp only [setFree_free] at hmem
    split at hmem
    · exact (List.nodup_cons.1 hnd).1 hmem
    · rename_i hne
      obtain ⟨z, hz, _, hzl, hzt⟩ := hw.freeOK t2 l2 c hmem
      rw [hy] at hz
      cases hz
      exact hne ⟨hzt.symm.trans hyt |>.symm ▸ rfl, hzl.symm.trans hyl |>.symm ▸ rfl⟩
  · rw [capacity_setCell_leaf hw1 c y _ hy1 hns hna, capacity_setFree]
  · exact ⟨{ y with state := CellState.Allocated owner }, by simp, rfl, hyl, hyt⟩

/-- Steps 1 and 2 of TryReserve keep the invariants and the capacity, and the
cell returned is recorded as Allocated to the requester at the requested
level. -/
theorem reserveAt_spec {ce : CellElements} (t owner : String) (ch : List Nat)
    (hch : ce.lookup t = some ch) :
    ∀ (l : Nat) (s : FreeListState) (c : Nat) (s1 : FreeListState), WF ce s → l ≤ ch.length →
      reserveAt ch t owner l s = some (c, s1) →
      WF ce s1 ∧ totalCapacity ce s1 = totalCapacity ce s ∧
      ∃ cell, s1.cells c = some cell ∧ cell.state = CellState.Allocated owner ∧
        cell.level = l ∧ cell.gpuType = t := by
  intro l
  induction l with
  | zero =>
    intro s c s1 hw _ hres
    unfold reserveAt at hres
    split at hres
    · rename_i c2 rest hfree
      simp only [Option.some.injEq, Prod.mk.injEq] at hres
      obtain ⟨rfl, rfl⟩ := hres
      exact pop_spec hw t owner 0 c2 rest hfree
    · cases hres
  | succ l ih =>
    intro s c s1 hw hl hres
    unfold reserveAt at hres
    split at hres
    · rename_i c2 rest hfree
      simp only [Option.some.injEq, Prod.mk.injEq] at hres
      obtain ⟨rfl, rfl⟩ := hres
      exact pop_spec hw t owner (l + 1) c2 rest hfree
    · rename_i hfree
      split at hres
      · cases hres
      · rename_i p s0 hrec
        obtain ⟨hw0, hcap0, pc, hpc, hps, hpl, hpt⟩ := ih s p s0 hw (by omega) hrec
        have hpns : pc.state ≠ CellState.Split := by
          rw [hps]; exact fun h => CellState.noConfusion h
        have hkids : pc.children = [] := hw0.leaf p pc hpc hpns
        have hpn : p < s0.nextId := lt_nextId_of_some hw0 hpc
        have hll : l < ch.length := by omega
        by_cases hf : ch.getD l 0 = 0
        · rw [splitCell_zero ch t owner l p s0 pc hpc hkids hf] at hres
          cases hres
        · rw [splitCell_eq ch t owner l p s0 pc hpc hkids hpn hf] at hres
          simp only [Option.some.injEq, Prod.mk.injEq] at hres
          obtain ⟨rfl, rfl⟩ := hres
          have hwS := WF_splitState hw0 t l p pc ch owner hpc hps hpl hpt hch hll
          have hcapS := capacity_splitState hw0 t l p pc ch owner hpc hps hpl hpt hch hll hf
          have hkidrec : ∀ k, s0.nextId ≤ k → k < s0.nextId + ch.getD l 0 →
              (splitState s0 t l p pc (ch.getD l 0)).cells k = some (kidCell t l p) :=
            fun k h1 h2 => splitState_cells_kid s0 t l p pc _ k hpn h1 h2
          have hfreelt : ∀ t2 l2 k, k ∈ s0.free t2 l2 → k < s0.nextId := by
            intro t2 l2 k hk
            obtain ⟨z, hz, _⟩ := hw0.freeOK t2 l2 k hk
            exact lt_nextId_of_some hw0 hz
          have hf1 : 1 ≤ ch.getD l 0 := Nat.one_le_iff_ne_zero.2 hf
          have hwF : WF ce ((splitState s0 t l p pc (ch.getD l 0)).setFree t (l + 1)
              (s0.free t (l + 1) ++ List.range' (s0.nextId + 1) (ch.getD l 0 - 1))) := by
            apply WF_setFree hwS
            · rw [List.nodup_append]
              refine ⟨hw0.freeNodup t (l + 1), List.nodup_range' _ _, ?_⟩
              intro a ha hb
              have := hfreelt t (l + 1) a ha
              rw [List.mem_range'_1] at hb
              omega
            · intro k hk
              rw [List.mem_append] at hk
              rcases hk with hk | hk
              · exact hwS.freeOK t (l + 1) k hk
              · rw [List.mem_range'_1] at hk
                exact ⟨_, hkidrec k (by omega) (by omega), rfl, rfl, rfl⟩
          have hkid0 : ((splitState s0 t l p pc (ch.getD l 0)).setFree t (l + 1)
              (s0.free t (l + 1) ++ List.range' (s0.nextId + 1) (ch.getD l 0 - 1))).cells
                s0.nextId = some (kidCell t l p) := hkidrec s0.nextId (le_refl _) (by omega)
          have hkns : (kidCell t l p).state ≠ CellState.Split :=
            fun h => CellState.noConfusion h
          have hna : CellState.Allocated owner ≠ CellState.Split :=
            fun h => CellState.noConfusion h
          refine ⟨?_, ?_, ?_⟩
          · apply WF_setCell_leaf hwF s0.nextId _ _ hkid0 hkns hna
            intro t2 l2 hmem
            simp only [setFree_free] at hmem
            split at hmem
            · rw [List.mem_append] at hmem
              rcases hmem with hk | hk
              · have := hfreelt t (l + 1) _ hk
                omega
              · rw [List.mem_range'_1] at hk
                omega
            · have := hfreelt t2 l2 _ hmem
              omega
          · rw [capacity_setCell_leaf hwF s0.nextId _ _ hkid0 hkns hna, capacity_setFree,
              hcapS, hcap0]
          · exact ⟨{ kidCell t l p with state := CellState.Allocated owner }, by simp, rfl,
              rfl, rfl⟩

theorem collapse_cells_parent (s : FreeListState) (p : Nat) (pc : Cell) (x : Cell) :
    ((s.removeCells pc.children).setCell p x).cells p = some x := by
  simp

theorem collapse_cells_old (s : FreeListState) (p : Nat) (pc : Cell) (x : Cell) (i : Nat)
    (hip : i ≠ p) (hik : i ∉ pc.children) :
    ((s.removeCells pc.children).setCell p x).cells i = s.cells i := by
  simp [FreeListState.removeCells, Function.update_noteq hip, hik]

theorem collapse_cells_kid (s : FreeListState) (p : Nat) (pc : Cell) (x : Cell) (i : Nat)
    (hip : i ≠ p) (hik : i ∈ pc.children) :
    ((s.removeCells pc.children).setCell p x).cells i = none := by
  simp [FreeListState.removeCells, Function.update_noteq hip, hik]

theorem collapse_cases (s : FreeListState) (p : Nat) (pc : Cell) (x : Cell) (i : Nat)
    (y : Cell) (hy : ((s.removeCells pc.children).setCell p x).cells i = some y) :
    (i = p ∧ y = x) ∨ (i ≠ p ∧ i ∉ pc.children ∧ s.cells i = some y) := by
  by_cases hip : i = p
  · left
    subst hip
    rw [collapse_cells_parent] at hy
    exact ⟨rfl, (Option.some.inj hy).symm⟩
  · right
    by_cases hik : i ∈ pc.children
    · rw [collapse_cells_kid s p pc x i hip hik] at hy
      cases hy
    · rw [collapse_cells_old s p pc x i hip hik] at hy
      exact ⟨hip, hik, hy⟩

/-- Facts about a Split cell all of whose children are Free. -/
theorem split_parent_facts {ce : CellElements} {s : FreeListState} (hw : WF ce s) (p : Nat)
    (pc : Cell) (hp : s.cells p = some pc) (hps : pc.state = CellState.Split) :
    p ∉ pc.children ∧
    (∀ q qc, s.cells q = some qc → qc.state = CellState.Split → q ≠ p →
      ∀ k ∈ qc.children, k ∉ pc.children) := by
  obtain ⟨ch, _, _, _, _, hk⟩ := hw.split p pc hp hps
  constructor
  · intro hmem
    obtain ⟨kc, hkc, hlev, _⟩ := hk p hmem
    rw [hp] at hkc
    cases hkc
    omega
  · intro q qc hq hqs hqp k hkq hkp
    obtain ⟨kc, hkc, _, _, hpar⟩ := hk k hkp
    obtain ⟨ch2, _, _, _, _, hk2⟩ := hw.split q qc hq hqs
    obtain ⟨kc2, hkc2, _, _, hpar2⟩ := hk2 k hkq
    rw [hkc] at hkc2
    cases hkc2
    rw [hpar] at hpar2
    exact hqp (Option.some.inj hpar2).symm

/-- Destroying the Free children of a Split cell and marking it Free keeps the
invariants. -/
theorem WF_collapse {ce : CellElements} {s : FreeListState} (hw : WF ce s) (p : Nat)
    (pc : Cell) (hp : s.cells p = some pc) (hps : pc.state = CellState.Split)
    (hfreeKids : ∀ k ∈ pc.children, ∃ kc, s.cells k = some kc ∧ kc.state = CellState.Free)
    (hnotin : ∀ k ∈ pc.children, ∀ t l, k ∉ s.free t l) :
    WF ce ((s.removeCells pc.children).setCell p
      { pc with state := CellState.Free, children := [] }) := by
  obtain ⟨hpk, hdisj⟩ := split_parent_facts hw p pc hp hps
  have hpn : p < s.nextId := lt_nextId_of_some hw hp
  have hsplitNotKid : ∀ q qc, s.cells q = some qc → qc.state = CellState.Split →
      q ∉ pc.children := by
    intro q qc hq hqs hmem
    obtain ⟨kc, hkc, hkf⟩ := hfreeKids q hmem
    rw [hq] at hkc
    cases hkc
    rw [hqs] at hkf
    cases hkf
  refine ⟨?_, ?_, hw.freeNodup, ?_, ?_, ?_⟩
  · intro i hi
    have hi2 : s.nextId ≤ i := hi
    have hip : i ≠ p := by omega
    by_cases hik : i ∈ pc.children
    · exact collapse_cells_kid s p pc _ i hip hik
    · rw [collapse_cells_old s p pc _ i hip hik]
      exact hw.bound i hi2
  · intro t l c hc
    have hc2 : c ∈ s.free t l := hc
    obtain ⟨y, hy, h1, h2, h3⟩ := hw.freeOK t l c hc2
    have hcp : c ≠ p := by
      intro h
      subst h
      rw [hp] at hy
      cases hy
      rw [hps] at h1
      cases h1
    refine ⟨y, ?_, h1, h2, h3⟩
    rw [collapse_cells_old s p pc _ c hcp (fun h => hnotin c h t l hc2)]
    exact hy
  · intro i x hx hxs
    rcases collapse_cases s p pc _ i x hx with ⟨_, rfl⟩ | ⟨_, _, h⟩
    · rfl
    · exact hw.leaf i x h hxs
  · intro i x hx hxs
    rcases collapse_cases s p pc _ i x hx with ⟨_, rfl⟩ | ⟨hip, _, h⟩
    · cases hxs
    · obtain ⟨ch2, h1, h2, h3, h4, h5⟩ := hw.split i x h hxs
      refine ⟨ch2, h1, h2, h3, h4, ?_⟩
      intro k hk
      obtain ⟨kc, hkc, h6, h7, h8⟩ := h5 k hk
      by_cases hkp : k = p
      · subst hkp
        rw [hp] at hkc
        cases hkc
        exact ⟨_, collapse_cells_parent _ _ _ _, h6, h7, h8⟩
      · refine ⟨kc, ?_, h6, h7, h8⟩
        rw [collapse_cells_old s p pc _ k hkp (hdisj i x h hxs hip k hk)]
        exact hkc
  · intro i x q hx hxq
    have hqold : ∀ j y, s.cells j = some y → y.parent = some q → j ∉ pc.children →
        ∃ qc, ((s.removeCells pc.children).setCell p
            { pc with state := CellState.Free, children := [] }).cells q = some qc ∧
          qc.state = CellState.Split ∧ j ∈ qc.children := by
      intro j y hy hyq hjk
      obtain ⟨qc, hqc, hqs, hmem⟩ := hw.parent j y q hy hyq
      have hqp : q ≠ p := by
        intro h
        subst h
        rw [hp] at hqc
        cases hqc
        exact hjk hmem
      refine ⟨qc, ?_, hqs, hmem⟩
      rw [collapse_cells_old s p pc _ q hqp (hsplitNotKid q qc hqc hqs)]
      exact hqc
    rcases collapse_cases s p pc _ i x hx with ⟨rfl, rfl⟩ | ⟨_, hik, h⟩
    · exact hqold i pc hp hxq hpk
    · exact hqold i x h hxq hik

theorem capacity_removeCells (ce : CellElements) (s : FreeListState) (ks : List Nat) (w : ℚ)
    (hnd : ks.Nodup) (hlt : ∀ k ∈ ks, k < s.nextId)
    (hw : ∀ k ∈ ks, slotWeight ce (s.cells k) = w) :
    totalCapacity ce (s.removeCells ks) = totalCapacity ce s - (ks.length : ℚ) * w := by
  unfold totalCapacity
  have hsub : ks.toFinset ⊆ Finset.range s.nextId := by
    intro k hk
    exact Finset.mem_range.2 (hlt k (List.mem_toFinset.1 hk))
  have h1 := Finset.sum_sdiff (f := fun i => slotWeight ce (s.cells i)) hsub
  have h2 := Finset.sum_sdiff (f := fun i => slotWeight ce ((s.removeCells ks).cells i)) hsub
  have h3 : ∑ x in ks.toFinset, slotWeight ce (s.cells x) = (ks.length : ℚ) * w := by
    rw [Finset.sum_congr rfl (g := fun _ => w)]
    · simp [List.toFinset_card_of_nodup hnd]
    · intro x hx
      exact hw x (List.mem_toFinset.1 hx)
  have h4 : ∑ x in ks.toFinset, slotWeight ce ((s.removeCells ks).cells x) = 0 := by
    apply Finset.sum_eq_zero
    intro x hx
    have hx2 : x ∈ ks := List.mem_toFinset.1 hx
    simp [FreeListState.removeCells, hx2, slotWeight]
  have h5 : ∑ x in Finset.range s.nextId \ ks.toFinset,
        slotWeight ce ((s.removeCells ks).cells x) =
      ∑ x in Finset.range s.nextId \ ks.toFinset, slotWeight ce (s.cells x) := by
    apply Finset.sum_congr rfl
    intro x hx
    have hx2 : x ∉ ks := fun h => (Finset.mem_sdiff.1 hx).2 (List.mem_toFinset.2 h)
    simp [FreeListState.removeCells, hx2]
  beta_reduce at h1 h2
  have h6 : (s.removeCells ks).nextId = s.nextId := rfl
  rw [h6, ← h2, ← h1, h3, h4, h5]
  ring

/-- A merge gives back the capacity of the parent: the Free children of a
Split cell together weigh as much as the parent marked Free. -/
theorem capacity_collapse {ce : CellElements} {s : FreeListState} (hw : WF ce s) (p : Nat)
    (pc : Cell) (hp : s.cells p = some pc) (hps : pc.state = CellState.Split)
    (hne : pc.children ≠ [])
    (hfreeKids : ∀ k ∈ pc.children, ∃ kc, s.cells k = some kc ∧ kc.state = CellState.Free) :
    totalCapacity ce ((s.removeCells pc.children).setCell p
      { pc with state := CellState.Free, children := [] }) = totalCapacity ce s := by
  obtain ⟨hpk, _⟩ := split_parent_facts hw p pc hp hps
  obtain ⟨ch, hch, hl, hlen, hnd, hk⟩ := hw.split p pc hp hps
  have hpn : p < s.nextId := lt_nextId_of_some hw hp
  have hf : ch.getD pc.level 0 ≠ 0 := by
    rw [← hlen]
    exact fun h => hne (List.length_eq_zero.1 h)
  have hkw : ∀ k ∈ pc.children, slotWeight ce (s.cells k) = cellCapacity ch (pc.level + 1) := by
    intro k hkm
    obtain ⟨kc, hkc, hkl, hkt, _⟩ := hk k hkm
    obtain ⟨kc2, hkc2, hkf⟩ := hfreeKids k hkm
    rw [hkc] at hkc2
    cases hkc2
    rw [hkc]
    simp [slotWeight, cellWeight, hkf, hkt, hch, hkl]
  have hklt : ∀ k ∈ pc.children, k < s.nextId := by
    intro k hkm
    obtain ⟨kc, hkc, _⟩ := hk k hkm
    exact lt_nextId_of_some hw hkc
  rw [capacity_setCell ce (s.removeCells pc.children) p _ hpn,
    capacity_removeCells ce s pc.children _ hnd hklt hkw]
  have h1 : (s.removeCells pc.children).cells p = some pc := by
    simp [FreeListState.removeCells, hpk, hp]
  have h2 : slotWeight ce (some pc) = 0 := by simp [slotWeight, cellWeight, hps]
  have h3 : cellWeight ce { pc with state := CellState.Free, children := [] } =
      cellCapacity ch pc.level := by
    simp [cellWeight, hch]
  rw [h1, h2, h3, hlen, cellCapacity_succ ch pc.level hl hf]
  ring

theorem isFree_iff (s : FreeListState) (k : Nat) :
    s.isFree k = true ↔ ∃ kc, s.cells k = some kc ∧ kc.state = CellState.Free := by
  unfold FreeListState.isFree
  cases h : s.cells k with
  | none => simp
  | some kc => simp

/-- One merge step keeps the invariants and the capacity. -/
theorem mergeStep_spec {ce : CellElements} {s : FreeListState} (hw : WF ce s) (c : Nat)
    (cell : Cell) (p : Nat) (pc : Cell) (hc : s.cells c = some cell)
    (hpar : cell.parent = some p) (hp : s.cells p = some pc)
    (hall : pc.children.all s.isFree = true) :
    WF ce (mergeStep s cell p pc) ∧
    totalCapacity ce (mergeStep s cell p pc) = totalCapacity ce s := by
  unfold mergeStep
  dsimp only
  obtain ⟨pc2, hp2, hps, hcmem⟩ := hw.parent c cell p hc hpar
  rw [hp] at hp2
  cases hp2
  obtain ⟨ch, hch, hl, hlen, hnd, hk⟩ := hw.split p pc hp hps
  have hcl : cell.level = pc.level + 1 ∧ cell.gpuType = pc.gpuType := by
    obtain ⟨kc, hkc, h1, h2, _⟩ := hk c hcmem
    rw [hc] at hkc
    cases hkc
    exact ⟨h1, h2⟩
  have hfreeKids : ∀ k ∈ pc.children, ∃ kc, s.cells k = some kc ∧
      kc.state = CellState.Free := by
    intro k hkm
    exact (isFree_iff s k).1 (List.all_eq_true.1 hall k hkm)
  have hwA : WF ce (s.setFree cell.gpuType cell.level
      ((s.free cell.gpuType cell.level).filter (fun x => !pc.children.contains x))) := by
    apply WF_setFree hw
    · exact (hw.freeNodup _ _).filter _
    · intro k hkm
      exact hw.freeOK _ _ k (List.mem_filter.1 hkm).1
  have hnotin : ∀ k ∈ pc.children, ∀ t l, k ∉ (s.setFree cell.gpuType cell.level
      ((s.free cell.gpuType cell.level).filter (fun x => !pc.children.contains x))).free t l := by
    intro k hkm t l hmem
    simp only [setFree_free] at hmem
    split at hmem
    · have := (List.mem_filter.1 hmem).2
      simp [hkm] at this
    · rename_i hne
      obtain ⟨z, hz, _, hzl, hzt⟩ := hw.freeOK t l k hmem
      obtain ⟨kc, hkc, h1, h2, _⟩ := hk k hkm
      rw [hz] at hkc
      cases hkc
      apply hne
      exact ⟨by rw [← hzt, h2, hcl.2], by rw [← hzl, h1, hcl.1]⟩
  have hwB := WF_collapse hwA p pc hp hps hfreeKids hnotin
  have hne : pc.children ≠ [] := List.ne_nil_of_mem hcmem
  have hcapB := capacity_collapse hwA p pc hp hps hne hfreeKids
  have hpfree : ∀ t l, p ∉ s.free t l := by
    intro t l hmem
    obtain ⟨z, hz, hzs, _⟩ := hw.freeOK t l p hmem
    rw [hp] at hz
    cases hz
    rw [hps] at hzs
    cases hzs
  have hsub : ∀ k, k ∈ (((s.setFree cell.gpuType cell.level
      ((s.free cell.gpuType cell.level).filter (fun x => !pc.children.contains x))).removeCells
        pc.children).setCell p { pc with state := CellState.Free, children := [] }).free
          pc.gpuType pc.level → k ∈ s.free pc.gpuType pc.level := by
    intro k hkm
    simp only [setCell_free, FreeListState.removeCells, setFree_free] at hkm
    split at hkm
    · rename_i h
      rw [h.1, h.2]
      exact (List.mem_filter.1 hkm).1
    · exact hkm
  constructor
  · apply WF_setFree hwB
    · rw [List.nodup_append]
      refine ⟨hwB.freeNodup _ _, List.nodup_singleton _, ?_⟩
      intro a ha hb
      rw [List.mem_singleton] at hb
      subst hb
      exact hpfree _ _ (hsub a ha)
    · intro k hkm
      rw [List.mem_append] at hkm
      rcases hkm with hkm | hkm
      · exact hwB.freeOK pc.gpuType pc.level k hkm
      · rw [List.mem_singleton] at hkm
        subst hkm
        exact ⟨_, collapse_cells_parent _ _ _ _, rfl, rfl, rfl⟩
  · rw [capacity_setFree, hcapB, capacity_setFree]

/-- The merge check of Release keeps the invariants and the capacity. -/
theorem mergeUp_spec {ce : CellElements} :
    ∀ (fuel : Nat) (s : FreeListState) (c : Nat), WF ce s →
      WF ce (mergeUp fuel s c) ∧ totalCapacity ce (mergeUp fuel s c) = totalCapacity ce s := by
  intro fuel
  induction fuel with
  | zero =>
    intro s c hw
    exact ⟨hw, rfl⟩
  | succ fuel ih =>
    intro s c hw
    unfold mergeUp
    split
    · exact ⟨hw, rfl⟩
    · rename_i cell hc
      split
      · exact ⟨hw, rfl⟩
      · rename_i p hpar
        split
        · exact ⟨hw, rfl⟩
        · rename_i pc hp
          split
          · rename_i hall
            obtain ⟨hw4, hcap4⟩ := mergeStep_spec hw c cell p pc hc hpar hp hall
            obtain ⟨hw5, hcap5⟩ := ih _ p hw4
            exact ⟨hw5, hcap5.trans hcap4⟩
          · exact ⟨hw, rfl⟩

theorem mergeStep_cells_parent (s : FreeListState) (cell : Cell) (p : Nat) (pc : Cell) :
    (mergeStep s cell p pc).cells p =
      some { pc with state := CellState.Free, children := [] } := by
  simp [mergeStep]

/-- The bound Release passes to the merge check is enough: in a state
satisfying the invariants a cell of level `n` has at most `n` ancestors, so a
larger bound gives the same result. -/
theorem mergeUp_fuel_enough {ce : CellElements} :
    ∀ (n : Nat) (s : FreeListState) (c : Nat) (cell : Cell) (fuel : Nat), WF ce s →
      s.cells c = some cell → cell.level = n → n ≤ fuel →
      mergeUp fuel s c = mergeUp n s c := by
  intro n
  induction n with
  | zero =>
    intro s c cell fuel hw hc hlev _
    have hnone : cell.parent = none := by
      cases hp : cell.parent with
      | none => rfl
      | some p =>
        exfalso
        obtain ⟨pc, hpc, hps, hmem⟩ := hw.parent c cell p hc hp
        obtain ⟨_, _, _, _, _, hk⟩ := hw.split p pc hpc hps
        obtain ⟨kc, hkc, hkl, _⟩ := hk c hmem
        rw [hc] at hkc
        cases hkc
        omega
    cases fuel with
    | zero => rfl
    | succ fuel =>
      rw [mergeUp, mergeUp]
      simp only [hc, hnone]
  | succ n ih =>
    intro s c cell fuel hw hc hlev hfuel
    obtain ⟨fuel2, rfl⟩ : ∃ k, fuel = k + 1 := ⟨fuel - 1, by omega⟩
    rw [mergeUp, mergeUp]
    simp only [hc]
    cases hp : cell.parent with
    | none => rfl
    | some p =>
      simp only
      cases hpc : s.cells p with
      | none => rfl
      | some pc =>
        simp only
        by_cases hall : pc.children.all s.isFree = true
        · simp only [hall, if_true]
          obtain ⟨hw2, _⟩ := mergeStep_spec hw c cell p pc hc hp hpc hall
          obtain ⟨pc2, hpc2, hps, hmem⟩ := hw.parent c cell p hc hp
          rw [hpc] at hpc2
          cases hpc2
          obtain ⟨_, _, _, _, _, hk⟩ := hw.split p pc hpc hps
          obtain ⟨kc, hkc, hkl, _⟩ := hk c hmem
          rw [hc] at hkc
          cases hkc
          exact ih (mergeStep s cell p pc) p _ fuel2 hw2 (mergeStep_cells_parent s cell p pc)
            (by simp only; omega) (by omega)
        · simp only [hall]
          rfl

/-- Release keeps the invariants and the capacity. -/
theorem Release_spec {ce : CellElements} {s : FreeListState} (hw : WF ce s) (c : Nat) :
    WF ce (Release s c).2 ∧ totalCapacity ce (Release s c).2 = totalCapacity ce s := by
  unfold Release
  split
  · exact ⟨hw, rfl⟩
  · rename_i cell hc
    split
    · rename_i owner hst
      have hns : cell.state ≠ CellState.Split := by
        rw [hst]; exact fun h => CellState.noConfusion h
      have hnf : CellState.Free ≠ CellState.Split := fun h => CellState.noConfusion h
      have hnotin : ∀ t l, c ∉ s.free t l := by
        intro t l hmem
        obtain ⟨z, hz, hzs, _⟩ := hw.freeOK t l c hmem
        rw [hc] at hz
        cases hz
        rw [hst] at hzs
        cases hzs
      have hw1 := WF_setCell_leaf hw c cell CellState.Free hc hns hnf hnotin
      have hcap1 := capacity_setCell_leaf hw c cell CellState.Free hc hns hnf
      rw [← setState_of_some s c CellState.Free cell hc] at hw1 hcap1
      have hw2 : WF ce ((s.setState c CellState.Free).setFree cell.gpuType cell.level
          ((s.setState c CellState.Free).free cell.gpuType cell.level ++ [c])) := by
        apply WF_setFree hw1
        · rw [List.nodup_append]
          refine ⟨hw1.freeNodup _ _, List.nodup_singleton _, ?_⟩
          intro a ha hb
          rw [List.mem_singleton] at hb
          subst hb
          rw [setState_of_some s a CellState.Free cell hc] at ha
          exact hnotin _ _ ha
        · intro k hk
          rw [List.mem_append] at hk
          rcases hk with hk | hk
          · exact hw1.freeOK _ _ k hk
          · rw [List.mem_singleton] at hk
            subst hk
            rw [setState_of_some s k CellState.Free cell hc]
            exact ⟨{ cell with state := CellState.Free }, by simp, rfl, rfl, rfl⟩
      obtain ⟨hw3, hcap3⟩ := mergeUp_spec cell.level _ c hw2
      refine ⟨hw3, ?_⟩
      unfold releaseState
      dsimp only
      rw [hcap3, capacity_setFree, hcap1]
    · exact ⟨hw, rfl⟩

/-- TryReserve keeps the invariants and the capacity. -/
theorem TryReserve_spec {ce : CellElements} {s : FreeListState} (hw : WF ce s) (t : String)
    (l : Nat) (r : String) :
    WF ce (TryReserve ce s t l r).2 ∧
      totalCapacity ce (TryReserve ce s t l r).2 = totalCapacity ce s := by
  unfold TryReserve
  split
  · exact ⟨hw, rfl⟩
  · rename_i ch hch
    split
    · exact ⟨hw, rfl⟩
    · rename_i hl
      split
      · rename_i c s1 hres
        obtain ⟨h1, h2, _⟩ := reserveAt_spec t r ch hch l s c s1 hw (by omega) hres
        exact ⟨h1, h2⟩
      · exact ⟨hw, rfl⟩

/-- Every operation keeps the invariants and the capacity. -/
theorem step_spec {ce : CellElements} {s : FreeListState} (hw : WF ce s) (op : Op) :
    WF ce (step ce s op) ∧ totalCapacity ce (step ce s op) = totalCapacity ce s := by
  cases op with
  | reserve t l r => exact TryReserve_spec hw t l r
  | release c => exact Release_spec hw c

/-- Every sequence of operations keeps the invariants and the capacity. -/
theorem run_spec {ce : CellElements} (ops : List Op) :
    ∀ s : FreeListState, WF ce s →
      WF ce (run ce s ops) ∧ totalCapacity ce (run ce s ops) = totalCapacity ce s := by
  induction ops with
  | nil =>
    intro s hw
    exact ⟨hw, rfl⟩
  | cons op ops ih =>
    intro s hw
    obtain ⟨h1, h2⟩ := step_spec hw op
    obtain ⟨h3, h4⟩ := ih (step ce s op) h1
    exact ⟨h3, h4.trans h2⟩

theorem WF_emptyState (ce : CellElements) : WF ce emptyState := by
  refine ⟨fun _ _ => rfl, ?_, ?_, ?_, ?_, ?_⟩
  · intro t l c hc
    simp [emptyState] at hc
  · intro t l
    simp [emptyState]
  · intro i cell h
    simp [emptyState] at h
  · intro i cell h
    simp [emptyState] at h
  · intro i cell p h
    simp [emptyState] at h

/-- Inserting a discovered coarsest-level cell keeps the invariants. -/
theorem WF_insertFreeCell {ce : CellElements} {s : FreeListState} (hw : WF ce s) (t : String) :
    WF ce (insertFreeCell s t) := by
  have hnew : (insertFreeCell s t).cells s.nextId = some (coarseCell t) := by
    simp [insertFreeCell]
  have hold : ∀ i, i ≠ s.nextId → (insertFreeCell s t).cells i = s.cells i := by
    intro i hi
    simp [insertFreeCell, Function.update_noteq hi]
  have hkeep : ∀ i y, s.cells i = some y → (insertFreeCell s t).cells i = some y := by
    intro i y hy
    rw [hold i (Nat.ne_of_lt (lt_nextId_of_some hw hy))]
    exact hy
  have hcases : ∀ i x, (insertFreeCell s t).cells i = some x →
      (i = s.nextId ∧ x = coarseCell t) ∨ s.cells i = some x := by
    intro i x hx
    by_cases hi : i = s.nextId
    · left
      subst hi
      rw [hnew] at hx
      exact ⟨rfl, (Option.some.inj hx).symm⟩
    · right
      rw [hold i hi] at hx
      exact hx
  refine ⟨?_, ?_, ?_, ?_, ?_, ?_⟩
  · intro i hi
    have hi2 : s.nextId + 1 ≤ i := hi
    rw [hold i (by omega)]
    exact hw.bound i (by omega)
  · intro t2 l2 c hc
    simp only [insertFreeCell] at hc
    split at hc
    · rename_i h
      obtain ⟨rfl, rfl⟩ := h
      rw [List.mem_append] at hc
      rcases hc with hc | hc
      · obtain ⟨y, hy, h⟩ := hw.freeOK _ _ c hc
        exact ⟨y, hkeep c y hy, h⟩
      · rw [List.mem_singleton] at hc
        subst hc
        exact ⟨_, hnew, rfl, rfl, rfl⟩
    · obtain ⟨y, hy, h⟩ := hw.freeOK _ _ c hc
      exact ⟨y, hkeep c y hy, h⟩
  · intro t2 l2
    simp only [insertFreeCell]
    split
    · rw [List.nodup_append]
      refine ⟨hw.freeNodup _ _, List.nodup_singleton _, ?_⟩
      intro a ha hb
      rw [List.mem_singleton] at hb
      subst hb
      obtain ⟨y, hy, _⟩ := hw.freeOK _ _ _ ha
      exact absurd (lt_nextId_of_some hw hy) (lt_irrefl _)
    · exact hw.freeNodup _ _
  · intro i x hx hxs
    rcases hcases i x hx with ⟨_, rfl⟩ | h
    · rfl
    · exact hw.leaf i x h hxs
  · intro i x hx hxs
    rcases hcases i x hx with ⟨_, rfl⟩ | h
    · cases hxs
    · obtain ⟨ch, h1, h2, h3, h4, h5⟩ := hw.split i x h hxs
      refine ⟨ch, h1, h2, h3, h4, ?_⟩
      intro k hk
      obtain ⟨kc, hkc, h6⟩ := h5 k hk
      exact ⟨kc, hkeep k kc hkc, h6⟩
  · intro i x q hx hxq
    rcases hcases i x hx with ⟨_, rfl⟩ | h
    · cases hxq
    · obtain ⟨qc, hqc, h6⟩ := hw.parent i x q h hxq
      exact ⟨qc, hkeep q qc hqc, h6⟩

/-- The inventory constructor yields a state satisfying the invariants. -/
theorem WF_buildInventory (ce : CellElements) (discovered : List String) (s : FreeListState)
    (h : buildInventory ce discovered = Except.ok s) : WF ce s := by
  unfold buildInventory at h
  have hgen : ∀ (ds : List String) (acc : Except EngineError FreeListState) (s : FreeListState),
      (∀ a, acc = Except.ok a → WF ce a) →
      ds.foldl
        (fun acc t =>
          match acc with
          | Except.error e => Except.error e
          | Except.ok s =>
            match ce.lookup t with
            | none => Except.error EngineError.InventoryError
            | some _ => Except.ok (insertFreeCell s t)) acc = Except.ok s → WF ce s := by
    intro ds
    induction ds with
    | nil =>
      intro acc s hacc hs
      exact hacc s hs
    | cons d ds ih =>
      intro acc s hacc hs
      rw [List.foldl_cons] at hs
      apply ih _ s _ hs
      intro a ha
      cases acc with
      | error e => simp at ha
      | ok s0 =>
        simp only at ha
        split at ha
        · cases ha
        · cases ha
          exact WF_insertFreeCell (hacc s0 rfl) d
  exact hgen discovered _ s (fun a ha => by cases ha; exact WF_emptyState ce) h

theorem FreeListState.ext_fields (a b : FreeListState) (h1 : a.free = b.free)
    (h2 : a.cells = b.cells) (h3 : a.nextId = b.nextId) : a = b := by
  cases a
  cases b
  simp only at h1 h2 h3
  subst h1 h2 h3
  rfl

/-- The merge check does not read the next unused identifier. -/
theorem mergeUp_nextId :
    ∀ (fuel : Nat) (s : FreeListState) (c m : Nat),
      mergeUp fuel { s with nextId := m } c = { mergeUp fuel s c with nextId := m } := by
  intro fuel
  induction fuel with
  | zero =>
    intro s c m
    rfl
  | succ fuel ih =>
    intro s c m
    unfold mergeUp
    cases h1 : s.cells c with
    | none => simp only [h1]
    | some cell =>
      simp only [h1]
      cases h2 : cell.parent with
      | none => simp only
      | some p =>
        simp only
        cases h3 : s.cells p with
        | none => simp only [h3]
        | some pc =>
          simp only [h3]
          have hfree : ({ s with nextId := m } : FreeListState).isFree = s.isFree := rfl
          rw [hfree]
          by_cases hall : pc.children.all s.isFree = true
          · simp only [hall, if_true]
            exact ih (mergeStep s cell p pc) p m
          · simp only [hall]
            rfl

theorem capacity_insertFreeCell (ce : CellElements) (s : FreeListState)
    (t : String) (ch : List Nat) (hch : ce.lookup t = some ch) :
    totalCapacity ce (insertFreeCell s t) = totalCapacity ce s + 1 := by
  unfold totalCapacity
  have hn : (insertFreeCell s t).nextId = s.nextId + 1 := rfl
  rw [hn, Finset.sum_range_succ]
  have h1 : ∑ x in Finset.range s.nextId, slotWeight ce ((insertFreeCell s t).cells x) =
      ∑ x in Finset.range s.nextId, slotWeight ce (s.cells x) := by
    apply Finset.sum_congr rfl
    intro x hx
    have hx2 : x ≠ s.nextId := Nat.ne_of_lt (Finset.mem_range.1 hx)
    simp [insertFreeCell, Function.update_noteq hx2]
  have h2 : slotWeight ce ((insertFreeCell s t).cells s.nextId) = 1 := by
    simp [insertFreeCell, slotWeight, cellWeight, coarseCell, hch, cellCapacity]
  rw [h1, h2]

theorem mergeUp_succ_merge (fuel : Nat) (s : FreeListState) (c : Nat) (cell : Cell) (p : Nat)
    (pc : Cell) (hc : s.cells c = some cell) (hpar : cell.parent = some p)
    (hp : s.cells p = some pc) (hall : pc.children.all s.isFree = true) :
    mergeUp (fuel + 1) s c = mergeUp fuel (mergeStep s cell p pc) p := by
  rw [mergeUp]
  simp only [hc, hpar, hp, hall, if_true]

theorem setFree_setFree (s : FreeListState) (t : String) (l : Nat) (xs ys : List Nat) :
    (s.setFree t l xs).setFree t l ys = s.setFree t l ys := by
  apply FreeListState.ext_fields
  · funext t2 l2
    simp only [setFree_free]
    split <;> rfl
  · rfl
  · rfl

/-- Merging the children created by a split gives back the state before the
split, with the parent marked Free and back in its free list. -/
theorem mergeStep_undo_split (s1 : FreeListState) (t : String) (l p : Nat) (pc : Cell)
    (f : Nat) (hf1 : 1 ≤ f) (hpc : s1.cells p = some pc) (hkids : pc.children = [])
    (hpl : pc.level = l) (hpt : pc.gpuType = t)
    (hbound : ∀ i, s1.nextId ≤ i → s1.cells i = none) (hfl1 : s1.free t (l + 1) = []) :
    mergeStep ((splitState s1 t l p pc f).setFree t (l + 1)
        (List.range' (s1.nextId + 1) (f - 1) ++ [s1.nextId])) (kidCell t l p) p
        { pc with children := List.range' s1.nextId f, state := CellState.Split } =
      { (s1.setState p CellState.Free).setFree t l
          ((s1.setState p CellState.Free).free t l ++ [p]) with
        nextId := s1.nextId + f } := by
  have hfilter : List.filter (fun x => !(List.range' s1.nextId f).contains x)
      (List.range' (s1.nextId + 1) (f - 1) ++ [s1.nextId]) = [] := by
    rw [List.filter_eq_nil_iff]
    intro a ha
    have ha2 : a ∈ List.range' s1.nextId f := by
      rw [List.mem_append, List.mem_range'_1, List.mem_singleton] at ha
      rw [List.mem_range'_1]
      omega
    simp [ha2]
  rw [setState_of_some _ _ _ _ hpc]
  apply FreeListState.ext_fields
  · funext t2 l2
    simp only [mergeStep, setFree_free, setCell_free, FreeListState.removeCells, kidCell,
      and_self, if_true, hfilter, hpl, hpt]
    have hne : ¬ (True ∧ l = l + 1) := by omega
    simp only [hne, if_false]
    by_cases h1 : t2 = t ∧ l2 = l
    · simp only [h1, and_self, if_true]
      rfl
    · simp only [h1, if_false]
      by_cases h2 : t2 = t ∧ l2 = l + 1
      · simp only [h2, and_self, if_true]
        rw [hfl1]
      · simp only [h2, if_false]
        rfl
  · funext i
    simp only [mergeStep, setFree_cells, setCell_cells, FreeListState.removeCells]
    by_cases hip : i = p
    · subst hip
      simp only [Function.update_same]
      cases pc
      simp only at hkids
      subst hkids
      rfl
    · rw [Function.update_noteq hip, Function.update_noteq hip]
      by_cases hr : i ∈ List.range' s1.nextId f
      · simp only [hr, if_true]
        rw [List.mem_range'_1] at hr
        exact (hbound i hr.1).symm
      · simp only [hr, if_false]
        rw [List.mem_range'_1] at hr
        simp [splitState, hip, hr]
  · rfl

theorem setState_self_free (y : Cell) (st : CellState) (h : y.state = CellState.Free) :
    ({ ({ y with state := st } : Cell) with state := CellState.Free } : Cell) = y := by
  cases y
  simp only at h
  subst h
  rfl

/-- Reserving at a level from a state whose free lists of the GPU type hold a
single coarsest cell, then releasing the reserved cell, restores the state up
to the next unused identifier. -/
theorem roundtrip_aux {ce : CellElements} (t owner : String) (ch : List Nat)
    (hch : ce.lookup t = some ch) (c0 : Nat) :
    ∀ (l : Nat) (s : FreeListState), WF ce s → l ≤ ch.length →
      (∀ k, k < l → ch.getD k 0 ≠ 0) → s.free t 0 = [c0] →
      (∀ k, 0 < k → k ≤ l → s.free t k = []) →
      ∃ a s1, reserveAt ch t owner l s = some (a, s1) ∧
        (∀ k, l < k → s1.free t k = s.free t k) ∧
        releaseState s1 t l a = { s with nextId := s1.nextId } := by
  intro l
  induction l with
  | zero =>
    intro s hw _ _ hfree0 _
    have hmem : c0 ∈ s.free t 0 := by rw [hfree0]; exact List.mem_singleton_self _
    obtain ⟨y, hy, hys, _, _⟩ := hw.freeOK t 0 c0 hmem
    have hy1 : (s.setFree t 0 []).cells c0 = some y := hy
    refine ⟨c0, (s.setFree t 0 []).setState c0 (CellState.Allocated owner), ?_, ?_, ?_⟩
    · unfold reserveAt
      rw [hfree0]
    · intro k hk
      rw [setState_of_some _ _ _ _ hy1]
      have hk0 : k ≠ 0 := by omega
      simp [hk0]
    · unfold releaseState mergeUp
      rw [setState_of_some _ _ _ _ hy1]
      have hy2 : ((s.setFree t 0 []).setCell c0
          { y with state := CellState.Allocated owner }).cells c0 =
          some { y with state := CellState.Allocated owner } := by simp
      rw [setState_of_some _ _ _ _ hy2]
      apply FreeListState.ext_fields
      · funext t2 l2
        simp only [setFree_free, setCell_free]
        by_cases h : t2 = t ∧ l2 = 0
        · simp [h, hfree0]
        · simp [h]
      · funext i
        simp only [setFree_cells, setCell_cells, Function.update_idem]
        by_cases hi : i = c0
        · subst hi
          rw [Function.update_same, hy, setState_self_free y _ hys]
        · rw [Function.update_noteq hi]
      · rfl
  | succ l ih =>
    intro s hw hl hpos hfree0 hempty
    obtain ⟨p, s1, hres, hframe, hundo⟩ := ih s hw (by omega) (fun k hk => hpos k (by omega))
      hfree0 (fun k h1 h2 => hempty k h1 (by omega))
    obtain ⟨hw1, _, pc, hpc, hps, hpl, hpt⟩ :=
      reserveAt_spec t owner ch hch l s p s1 hw (by omega) hres
    have hpns : pc.state ≠ CellState.Split := by
      rw [hps]; exact fun h => CellState.noConfusion h
    have hkids : pc.children = [] := hw1.leaf p pc hpc hpns
    have hpn : p < s1.nextId := lt_nextId_of_some hw1 hpc
    have hf : ch.getD l 0 ≠ 0 := hpos l (by omega)
    have hf1 : 1 ≤ ch.getD l 0 := Nat.one_le_iff_ne_zero.2 hf
    have hfl1 : s1.free t (l + 1) = [] := by
      rw [hframe (l + 1) (by omega)]
      exact hempty (l + 1) (by omega) (le_refl _)
    have hsplit := splitCell_eq ch t owner l p s1 pc hpc hkids hpn hf
    rw [hfl1, List.nil_append] at hsplit
    refine ⟨s1.nextId, ((splitState s1 t l p pc (ch.getD l 0)).setFree t (l + 1)
      (List.range' (s1.nextId + 1) (ch.getD l 0 - 1))).setCell s1.nextId
        { kidCell t l p with state := CellState.Allocated owner }, ?_, ?_, ?_⟩
    · rw [reserveAt]
      simp only [hempty (l + 1) (by omega) (le_refl _), hres]
      exact hsplit
    · intro k hk
      have hk1 : k ≠ l + 1 := by omega
      simp only [setCell_free, setFree_free, hk1, and_false, if_false]
      exact hframe k (by omega)
    · have hkidn : (splitState s1 t l p pc (ch.getD l 0)).cells s1.nextId =
          some (kidCell t l p) :=
        splitState_cells_kid s1 t l p pc _ _ hpn (le_refl _) (by omega)
      have hY : ((((splitState s1 t l p pc (ch.getD l 0)).setFree t (l + 1)
          (List.range' (s1.nextId + 1) (ch.getD l 0 - 1))).setCell s1.nextId
            { kidCell t l p with state := CellState.Allocated owner }).setState s1.nextId
              CellState.Free) =
          (splitState s1 t l p pc (ch.getD l 0)).setFree t (l + 1)
            (List.range' (s1.nextId + 1) (ch.getD l 0 - 1)) := by
        rw [setState_of_some _ _ _ { kidCell t l p with state := CellState.Allocated owner }
          (by simp)]
        apply FreeListState.ext_fields
        · rfl
        · funext i
          simp only [setCell_cells, setFree_cells, Function.update_idem]
          by_cases hi : i = s1.nextId
          · subst hi
            rw [Function.update_same, hkidn]
            rfl
          · rw [Function.update_noteq hi]
        · rfl
      unfold releaseState
      dsimp only
      rw [hY, setFree_setFree]
      simp only [setFree_free, and_self, if_true]
      have hall : (List.range' s1.nextId (ch.getD l 0)).all
          ((splitState s1 t l p pc (ch.getD l 0)).setFree t (l + 1)
            (List.range' (s1.nextId + 1) (ch.getD l 0 - 1) ++ [s1.nextId])).isFree = true := by
        rw [List.all_eq_true]
        intro k hk
        rw [List.mem_range'_1] at hk
        rw [isFree_iff]
        exact ⟨kidCell t l p, splitState_cells_kid s1 t l p pc _ k hpn hk.1 hk.2, rfl⟩
      rw [mergeUp_succ_merge l ((splitState s1 t l p pc (ch.getD l 0)).setFree t (l + 1)
          (List.range' (s1.nextId + 1) (ch.getD l 0 - 1) ++ [s1.nextId]))
          s1.nextId (kidCell t l p) p _ hkidn rfl
        (splitState_cells_parent s1 t l p pc _) hall,
        mergeStep_undo_split s1 t l p pc _ hf1 hpc hkids hpl hpt hw1.bound hfl1, mergeUp_nextId]
      have hundo2 : mergeUp l ((s1.setState p CellState.Free).setFree t l
          ((s1.setState p CellState.Free).free t l ++ [p])) p =
          { s with nextId := s1.nextId } := hundo
      rw [hundo2]
      rfl

/-- The inventory constructor gives each discovered cell capacity one. -/
theorem capacity_buildInventory (ce : CellElements) (discovered : List String)
    (s : FreeListState) (h : buildInventory ce discovered = Except.ok s) :
    totalCapacity ce s = (discovered.length : ℚ) := by
  unfold buildInventory at h
  have hgen : ∀ (ds : List String) (a s : FreeListState),
      ds.foldl
        (fun acc t =>
          match acc with
          | Except.error e => Except.error e
          | Except.ok s =>
            match ce.lookup t with
            | none => Except.error EngineError.InventoryError
            | some _ => Except.ok (insertFreeCell s t)) (Except.ok a) = Except.ok s →
      totalCapacity ce s = totalCapacity ce a + (ds.length : ℚ) := by
    intro ds
    induction ds with
    | nil =>
      intro a s hs
      simp only [List.foldl_nil, Except.ok.injEq] at hs
      subst hs
      simp
    | cons d ds ih =>
      intro a s hs
      rw [List.foldl_cons] at hs
      cases hl : ce.lookup d with
      | none =>
        simp only [hl] at hs
        exfalso
        have herr : ∀ (xs : List String) (e : EngineError),
            xs.foldl
              (fun acc t =>
                match acc with
                | Except.error e => Except.error e
                | Except.ok s =>
                  match ce.lookup t with
                  | none => Except.error EngineError.InventoryError
                  | some _ => Except.ok (insertFreeCell s t))
              (Except.error e : Except EngineError FreeListState) = Except.error e := by
          intro xs
          induction xs with
          | nil => intro e; rfl
          | cons x xs ihx => intro e; rw [List.foldl_cons]; exact ihx e
        rw [herr] at hs
        cases hs
      | some ch =>
        simp only [hl] at hs
        rw [ih _ s hs, capacity_insertFreeCell ce a d ch hl, List.length_cons]
        push_cast
        ring
  have := hgen discovered emptyState s h
  rw [this]
  simp [totalCapacity, emptyState]

end EngineLemmas

/-! ## Allocation engine -/

section EngineProperties

/-- Claim C4: for every free-list state and every cell recorded as Free in it,
Release returns a ReleaseError and the state after the call is the state
before it. -/
theorem Release_of_Free_is_error (s : FreeListState) (c : Nat) (cell : Cell)
    (hc : s.cells c = some cell) (hfree : cell.state = CellState.Free) :
    Release s c = (Except.error EngineError.ReleaseError, s) := by
  unfold Release
  rw [hc]
  simp only [hfree]

/-- Witness for C4: releasing the Free gpu cell of the sample inventory. -/
theorem Release_of_Free_is_error_witness :
    sampleState.cells 0 = some (coarseCell "gpu") ∧
    (coarseCell "gpu").state = CellState.Free ∧
    Release sampleState 0 = (Except.error EngineError.ReleaseError, sampleState) :=
  ⟨by decide, rfl, Release_of_Free_is_error sampleState 0 (coarseCell "gpu") (by decide) rfl⟩

/-- Claim C3: from every initial free-list state built by the inventory constructor
and after every finite sequence of TryReserve and Release operations, a
further finite sequence of such operations leaves the total capacity of all
cells, in coarsest-level units, as it was; that capacity is the number of
discovered coarsest-level cells. -/
theorem capacity_conserved (ce : CellElements) (discovered : List String)
    (s0 : FreeListState) (h : buildInventory ce discovered = Except.ok s0)
    (before ops : List Op) :
    totalCapacity ce (run ce (run ce s0 before) ops) = totalCapacity ce (run ce s0 before) ∧
    totalCapacity ce (run ce s0 before) = (discovered.length : ℚ) := by
  have hw0 := WF_buildInventory ce discovered s0 h
  obtain ⟨hw1, hcap1⟩ := run_spec before s0 hw0
  obtain ⟨_, hcap2⟩ := run_spec ops (run ce s0 before) hw1
  exact ⟨hcap2, by rw [hcap1, capacity_buildInventory ce discovered s0 h]⟩

/-- Witness for C3: on the chain gpu, half, quarter with one gpu cell, two
quarter reservations followed by a third reservation and two releases. -/
theorem capacity_conserved_witness :
    buildInventory sampleChains ["gpu"] = Except.ok sampleState ∧
    (totalCapacity sampleChains
        (run sampleChains
          (run sampleChains sampleState [Op.reserve "gpu" 2 "a", Op.reserve "gpu" 2 "b"])
          [Op.reserve "gpu" 2 "c", Op.release 3, Op.release 4]) =
      totalCapacity sampleChains
        (run sampleChains sampleState [Op.reserve "gpu" 2 "a", Op.reserve "gpu" 2 "b"]) ∧
    totalCapacity sampleChains
        (run sampleChains sampleState [Op.reserve "gpu" 2 "a", Op.reserve "gpu" 2 "b"]) =
      (["gpu"].length : ℚ)) :=
  ⟨rfl, capacity_conserved sampleChains ["gpu"] sampleState rfl
    [Op.reserve "gpu" 2 "a", Op.reserve "gpu" 2 "b"]
    [Op.reserve "gpu" 2 "c", Op.release 3, Op.release 4]⟩

/-- Claim C2: for every chain with positive fan-outs and every level of it, on the
free-list state that consists of a single Free coarsest-level cell, TryReserve
at that level succeeds with a cell Allocated to the requester, and releasing
that cell succeeds and restores a state with exactly one Free coarsest-level
cell (the original one) and no other cell, Free or not, at any level. -/
theorem split_merge_round_trip (ce : CellElements) (t owner : String) (ch : List Nat)
    (level : Nat) (hch : ce.lookup t = some ch) (hpos : ∀ f ∈ ch, 0 < f)
    (hlevel : level ≤ ch.length) :
    ∃ a s1 s2,
      TryReserve ce (insertFreeCell emptyState t) t level owner = (Except.ok (some a), s1) ∧
      (∃ cell, s1.cells a = some cell ∧ cell.state = CellState.Allocated owner ∧
        cell.level = level) ∧
      Release s1 a = (Except.ok (), s2) ∧
      Inspect s2 t 0 = 1 ∧
      (∀ t2 l2, (t2 ≠ t ∨ l2 ≠ 0) → Inspect s2 t2 l2 = 0) ∧
      s2.free t 0 = [0] ∧
      s2.cells 0 = some (coarseCell t) ∧
      ∀ i, i ≠ 0 → s2.cells i = none := by
  have hw0 : WF ce (insertFreeCell emptyState t) := WF_insertFreeCell (WF_emptyState ce) t
  have hfree0 : (insertFreeCell emptyState t).free t 0 = [0] := by
    simp [insertFreeCell, emptyState]
  have hother : ∀ t2 l2, (t2 ≠ t ∨ l2 ≠ 0) → (insertFreeCell emptyState t).free t2 l2 = [] := by
    intro t2 l2 hne
    have hn : ¬ (t2 = t ∧ l2 = 0) := by
      intro h
      rcases hne with h1 | h1
      · exact h1 h.1
      · exact h1 h.2
    simp [insertFreeCell, emptyState, hn]
  have hposk : ∀ k, k < level → ch.getD k 0 ≠ 0 := by
    intro k hk
    have hkl : k < ch.length := by omega
    have hget : ch.getD k 0 = ch[k] := by
      simp [List.getD_eq_getElem?_getD, List.getElem?_eq_getElem hkl]
    rw [hget]
    exact Nat.pos_iff_ne_zero.1 (hpos _ (List.getElem_mem hkl))
  obtain ⟨a, s1, hres, _, hundo⟩ := roundtrip_aux t owner ch hch 0 level
    (insertFreeCell emptyState t) hw0 hlevel hposk hfree0
    (fun k hk _ => hother t k (Or.inr (by omega)))
  obtain ⟨_, _, cell, hcell, hstate, hclevel, hctype⟩ :=
    reserveAt_spec t owner ch hch level _ a s1 hw0 hlevel hres
  refine ⟨a, s1, { insertFreeCell emptyState t with nextId := s1.nextId }, ?_,
    ⟨cell, hcell, hstate, hclevel⟩, ?_, ?_, ?_, hfree0, ?_, ?_⟩
  · unfold TryReserve
    rw [hch]
    simp only [not_lt.2 hlevel, if_false, hres]
  · unfold Release
    rw [hcell]
    simp only [hstate, hclevel, hctype, hundo]
  · simp [Inspect, hfree0]
  · intro t2 l2 hne
    simp only [Inspect, List.length_eq_zero]
    exact hother t2 l2 hne
  · exact Function.update_same (0 : Nat) (some (coarseCell t)) emptyState.cells
  · intro i hi
    exact Function.update_noteq hi (some (coarseCell t)) emptyState.cells

/-- Witness for C2: the chain gpu, half, quarter with fan-out 2 and one
physical gpu cell.  One quarter reservation and its release restore the single
Free gpu cell.  In the scenario of the specification the first quarter
reservation splits twice and leaves one Free quarter and one Free half, the
second takes the Free quarter, the third splits the Free half, and releasing
the three quarters merges back to exactly one Free gpu cell. -/
theorem split_merge_round_trip_witness :
    (∃ a s1 s2,
      TryReserve sampleChains (insertFreeCell emptyState "gpu") "gpu" 2 "uid-1" =
        (Except.ok (some a), s1) ∧
      (∃ cell, s1.cells a = some cell ∧ cell.state = CellState.Allocated "uid-1" ∧
        cell.level = 2) ∧
      Release s1 a = (Except.ok (), s2) ∧
      Inspect s2 "gpu" 0 = 1 ∧
      (∀ t2 l2, (t2 ≠ "gpu" ∨ l2 ≠ 0) → Inspect s2 t2 l2 = 0) ∧
      s2.free "gpu" 0 = [0] ∧
      s2.cells 0 = some (coarseCell "gpu") ∧
      ∀ i, i ≠ 0 → s2.cells i = none) ∧
    ((TryReserve sampleChains sampleState "gpu" 2 "a").1 = Except.ok (some 3) ∧
      Inspect (run sampleChains sampleState [Op.reserve "gpu" 2 "a"]) "gpu" 2 = 1 ∧
      Inspect (run sampleChains sampleState [Op.reserve "gpu" 2 "a"]) "gpu" 1 = 1 ∧
      Inspect (run sampleChains sampleState [Op.reserve "gpu" 2 "a"]) "gpu" 0 = 0) ∧
    ((TryReserve sampleChains (run sampleChains sampleState [Op.reserve "gpu" 2 "a"])
        "gpu" 2 "b").1 = Except.ok (some 4) ∧
      Inspect (run sampleChains sampleState
        [Op.reserve "gpu" 2 "a", Op.reserve "gpu" 2 "b"]) "gpu" 1 = 1) ∧
    ((TryReserve sampleChains (run sampleChains sampleState
        [Op.reserve "gpu" 2 "a", Op.reserve "gpu" 2 "b"]) "gpu" 2 "c").1 =
          Except.ok (some 5) ∧
      Inspect (run sampleChains sampleState
        [Op.reserve "gpu" 2 "a", Op.reserve "gpu" 2 "b", Op.reserve "gpu" 2 "c"]) "gpu" 2 = 1 ∧
      Inspect (run sampleChains sampleState
        [Op.reserve "gpu" 2 "a", Op.reserve "gpu" 2 "b", Op.reserve "gpu" 2 "c"]) "gpu" 1 = 0) ∧
    (Inspect (run sampleChains sampleState
        [Op.reserve "gpu" 2 "a", Op.reserve "gpu" 2 "b", Op.reserve "gpu" 2 "c",
         Op.release 3, Op.release 4, Op.release 5]) "gpu" 0 = 1 ∧
      Inspect (run sampleChains sampleState
        [Op.reserve "gpu" 2 "a", Op.reserve "gpu" 2 "b", Op.reserve "gpu" 2 "c",
         Op.release 3, Op.release 4, Op.release 5]) "gpu" 1 = 0 ∧
      Inspect (run sampleChains sampleState
        [Op.reserve "gpu" 2 "a", Op.reserve "gpu" 2 "b", Op.reserve "gpu" 2 "c",
         Op.release 3, Op.release 4, Op.release 5]) "gpu" 2 = 0 ∧
      (run sampleChains sampleState
        [Op.reserve "gpu" 2 "a", Op.reserve "gpu" 2 "b", Op.reserve "gpu" 2 "c",
         Op.release 3, Op.release 4, Op.release 5]).cells 0 = some (coarseCell "gpu")) := by
  refine ⟨split_merge_round_trip sampleChains "gpu" "uid-1" [2, 2] 2 rfl (by decide)
    (by decide), ⟨rfl, ?_, ?_, ?_⟩, ⟨rfl, ?_⟩, ⟨rfl, ?_, ?_⟩, ⟨?_, ?_, ?_, ?_⟩⟩ <;> decide

end EngineProperties

/-! ## Plugin adapter -/

section Adapter

variable {Cfg H P Cl Raw FL CE Obj : Type}

/-- Whatever way `New` ends, the only handler it can have registered is the
filtering handler of lines 147-156. -/
theorem New_handlers [Inhabited FL] [Inhabited CE] (env : Env Cfg H P Cl Raw FL CE Obj)
    (config : Cfg) (handle : H)
    (h : FilteringResourceEventHandler (KubeShareScheduler H P FL CE) Obj)
    (hmem : h ∈ (New env config handle).handlers) : h = nodeEventHandler env := by
  unfold New at hmem
  split at hmem
  · simp at hmem
  · split at hmem
    · simp at hmem
    · dsimp only at hmem
      split at hmem <;> simpa using hmem

/-- Claim C8: for every scheduler value, `Name()` returns the plugin name constant
`Name`, which is the string "kubeshare-scheduler", whatever the state. -/
theorem Name_is_plugin_name (kss : KubeShareScheduler H P FL CE) :
    kss.Name = KubeShare.Name ∧ KubeShare.Name = "kubeshare-scheduler" :=
  ⟨rfl, rfl⟩

/-- Claim C9 (code evaluated at the failing input): `Less` returns true for every
pair of pod infos, in particular for a pod info compared with itself and for
both orders of a pair, so it is not a strict ordering. -/
theorem Less_always_true (kss : KubeShareScheduler H P FL CE) (p q : PodInfo) :
    (kss.Less p p).1 = true ∧ (kss.Less p q).1 = true ∧ (kss.Less q p).1 = true :=
  ⟨rfl, rfl, rfl⟩

/-- Claim C10: for every scheduler state, pod and node, PreFilter, Filter and
Reserve return a Success status with an empty message, Score returns score 0
with a Success status, Permit returns a Success status with wait duration 0,
and none of these hooks changes cellFreeList, cellElements, gpuPriority or
sortGPUByPriority. -/
theorem hooks_constant_and_frame (kss : KubeShareScheduler H P FL CE) (pod : Pod)
    (node : String) :
    ((kss.PreFilter pod).1 = { code := Code.Success, message := "" } ∧
      (kss.Filter pod node).1 = { code := Code.Success, message := "" } ∧
      (kss.Reserve pod node).1 = { code := Code.Success, message := "" } ∧
      (kss.Score pod node).1 = (0, { code := Code.Success, message := "" }) ∧
      (kss.Permit pod node).1 = ({ code := Code.Success, message := "" }, 0)) ∧
    (sameAllocation (kss.PreFilter pod).2 kss ∧
      sameAllocation (kss.Filter pod node).2 kss ∧
      sameAllocation (kss.Reserve pod node).2 kss ∧
      sameAllocation (kss.Score pod node).2 kss ∧
      sameAllocation (kss.Permit pod node).2 kss) :=
  ⟨⟨rfl, rfl, rfl, rfl, rfl⟩,
    ⟨⟨rfl, rfl, rfl, rfl⟩, ⟨rfl, rfl, rfl, rfl⟩, ⟨rfl, rfl, rfl, rfl⟩, ⟨rfl, rfl, rfl, rfl⟩,
      ⟨rfl, rfl, rfl, rfl⟩⟩⟩

/-- Claim C7: when decoding the plugin configuration into the default arguments
fails, `New` returns a nil plugin together with exactly that error, having
made no outside call (no logger, client, chain building, inventory
construction) and registered no handler. -/
theorem New_decode_error [Inhabited FL] [Inhabited CE] (env : Env Cfg H P Cl Raw FL CE Obj)
    (config : Cfg) (handle : H) (err : String)
    (h : env.DecodeInto config defaultArgs = Except.error err) :
    (∃ plugin e, (New env config handle).outcome = Outcome.returned plugin e ∧
      plugin = none ∧ e = some err) ∧
    (New env config handle).steps = [] ∧
    (New env config handle).handlers = [] := by
  unfold New
  rw [h]
  exact ⟨⟨none, some err, rfl, rfl, rfl⟩, rfl, rfl⟩

/-- Witness for C7: the empty configuration does not decode. -/
theorem New_decode_error_witness :
    sampleEnv.DecodeInto "" defaultArgs = Except.error "unexpected end of JSON input" ∧
    ((∃ plugin e, (New sampleEnv "" ()).outcome = Outcome.returned plugin e ∧
      plugin = none ∧ e = some "unexpected end of JSON input") ∧
    (New sampleEnv "" ()).steps = [] ∧
    (New sampleEnv "" ()).handlers = []) :=
  ⟨rfl, New_decode_error sampleEnv "" () "unexpected end of JSON input" rfl⟩

/-- Claim C6: for the handler registered by `New`, a node-add event whose object
fails `isGPUNode` leaves the whole scheduler state unchanged whatever
`addNode` does, an add event whose object passes is handed to `addNode`, and
the state after any event is either unchanged or the result of `addNode` on
an object on which `isGPUNode` returns true. -/
theorem addNode_only_on_GPU_nodes [Inhabited FL] [Inhabited CE]
    (env : Env Cfg H P Cl Raw FL CE Obj) (config : Cfg) (handle : H)
    (h : FilteringResourceEventHandler (KubeShareScheduler H P FL CE) Obj)
    (hmem : h ∈ (New env config handle).handlers) (kss : KubeShareScheduler H P FL CE) :
    (∀ obj, env.isGPUNode kss obj = false → h.deliver (NodeEvent.add obj) kss = kss) ∧
    (∀ obj, env.isGPUNode kss obj = true →
      h.deliver (NodeEvent.add obj) kss = env.addNode obj kss) ∧
    (∀ ev, h.deliver ev kss = kss ∨
      ∃ obj, env.isGPUNode kss obj = true ∧ h.deliver ev kss = env.addNode obj kss) := by
  rw [New_handlers env config handle h hmem]
  refine ⟨?_, ?_, ?_⟩
  · intro obj hobj
    simp [FilteringResourceEventHandler.deliver, FilteringResourceEventHandler.OnAdd,
      nodeEventHandler, hobj]
  · intro obj hobj
    simp [FilteringResourceEventHandler.deliver, FilteringResourceEventHandler.OnAdd,
      ResourceEventHandlerFuncs.OnAdd, nodeEventHandler, hobj]
  · intro ev
    cases ev with
    | add obj =>
      cases hobj : env.isGPUNode kss obj with
      | false =>
        left
        simp [FilteringResourceEventHandler.deliver, FilteringResourceEventHandler.OnAdd,
          nodeEventHandler, hobj]
      | true =>
        right
        refine ⟨obj, hobj, ?_⟩
        simp [FilteringResourceEventHandler.deliver, FilteringResourceEventHandler.OnAdd,
          ResourceEventHandlerFuncs.OnAdd, nodeEventHandler, hobj]
    | update oldObj newObj =>
      cases hnew : env.isGPUNode kss newObj with
      | false =>
        left
        cases hold : env.isGPUNode kss oldObj <;>
          simp [FilteringResourceEventHandler.deliver, FilteringResourceEventHandler.OnUpdate,
            ResourceEventHandlerFuncs.OnDelete, nodeEventHandler, hnew, hold]
      | true =>
        cases hold : env.isGPUNode kss oldObj with
        | false =>
          right
          refine ⟨newObj, hnew, ?_⟩
          simp [FilteringResourceEventHandler.deliver, FilteringResourceEventHandler.OnUpdate,
            ResourceEventHandlerFuncs.OnAdd, nodeEventHandler, hnew, hold]
        | true =>
          left
          simp [FilteringResourceEventHandler.deliver, FilteringResourceEventHandler.OnUpdate,
            ResourceEventHandlerFuncs.OnUpdate, nodeEventHandler, hnew, hold]
    | delete obj =>
      left
      cases hobj : env.isGPUNode kss obj <;>
        simp [FilteringResourceEventHandler.deliver, FilteringResourceEventHandler.OnDelete,
          ResourceEventHandlerFuncs.OnDelete, nodeEventHandler, hobj]

/-- The handler of the sample environment is registered by `New`. -/
theorem sample_handler_registered :
    nodeEventHandler sampleEnv ∈ (New sampleEnv "config.yaml" ()).handlers := by
  simp [New, sampleEnv]

/-- Witness for C6: an add event for a node without GPU changes nothing. -/
theorem addNode_only_on_GPU_nodes_witness :
    nodeEventHandler sampleEnv ∈ (New sampleEnv "config.yaml" ()).handlers ∧
    sampleEnv.isGPUNode sampleScheduler plainNode = false ∧
    (nodeEventHandler sampleEnv).deliver (NodeEvent.add plainNode) sampleScheduler =
      sampleScheduler :=
  ⟨sample_handler_registered, rfl,
    (addNode_only_on_GPU_nodes sampleEnv "config.yaml" () (nodeEventHandler sampleEnv)
      sample_handler_registered sampleScheduler).1 plainNode rfl⟩

/-- Claim C5 (amended): for the handler registered by `New`, every node-delete
event leaves the scheduler state unchanged, and so does every node-update
event except one whose old object fails `isGPUNode` while its new object
passes; such an update is delivered to `addNode` as an add of the new
object. -/
theorem node_update_delete_frame [Inhabited FL] [Inhabited CE]
    (env : Env Cfg H P Cl Raw FL CE Obj) (config : Cfg) (handle : H)
    (h : FilteringResourceEventHandler (KubeShareScheduler H P FL CE) Obj)
    (hmem : h ∈ (New env config handle).handlers) (kss : KubeShareScheduler H P FL CE) :
    (∀ obj, h.deliver (NodeEvent.delete obj) kss = kss) ∧
    (∀ oldObj newObj,
      ¬ (env.isGPUNode kss newObj = true ∧ env.isGPUNode kss oldObj = false) →
      h.deliver (NodeEvent.update oldObj newObj) kss = kss) ∧
    (∀ oldObj newObj, env.isGPUNode kss newObj = true → env.isGPUNode kss oldObj = false →
      h.deliver (NodeEvent.update oldObj newObj) kss = env.addNode newObj kss) := by
  rw [New_handlers env config handle h hmem]
  refine ⟨?_, ?_, ?_⟩
  · intro obj
    cases hobj : env.isGPUNode kss obj <;>
      simp [FilteringResourceEventHandler.deliver, FilteringResourceEventHandler.OnDelete,
        ResourceEventHandlerFuncs.OnDelete, nodeEventHandler, hobj]
  · intro oldObj newObj hne
    cases hnew : env.isGPUNode kss newObj <;> cases hold : env.isGPUNode kss oldObj <;>
      simp [FilteringResourceEventHandler.deliver, FilteringResourceEventHandler.OnUpdate,
        ResourceEventHandlerFuncs.OnUpdate, ResourceEventHandlerFuncs.OnDelete,
        nodeEventHandler, hnew, hold] at hne ⊢
  · intro oldObj newObj hnew hold
    simp [FilteringResourceEventHandler.deliver, FilteringResourceEventHandler.OnUpdate,
      ResourceEventHandlerFuncs.OnAdd, nodeEventHandler, hnew, hold]

/-- Witness for C5 (amended): deleting a GPU node changes nothing. -/
theorem node_update_delete_frame_witness :
    nodeEventHandler sampleEnv ∈ (New sampleEnv "config.yaml" ()).handlers ∧
    (nodeEventHandler sampleEnv).deliver (NodeEvent.delete gpuNode) sampleScheduler =
      sampleScheduler :=
  ⟨sample_handler_registered,
    (node_update_delete_frame sampleEnv "config.yaml" () (nodeEventHandler sampleEnv)
      sample_handler_registered sampleScheduler).1 gpuNode⟩

/-- Claim C5 (counterexample): with the modelled `isGPUNode` and `addNode`, the
update event that turns a node without GPU into a node with one gpu changes
`cellFreeList`: the handler registered by `New` hands it to `addNode`, which
inserts a Free gpu cell. -/
theorem node_update_changes_free_list :
    nodeEventHandler sampleEnv ∈ (New sampleEnv "config.yaml" ()).handlers ∧
    emptyScheduler.cellFreeList.free "gpu" 0 = [] ∧
    ((nodeEventHandler sampleEnv).deliver (NodeEvent.update plainNode gpuNode)
      emptyScheduler).cellFreeList.free "gpu" 0 = [0] ∧
    ((nodeEventHandler sampleEnv).deliver (NodeEvent.update plainNode gpuNode)
      emptyScheduler).cellFreeList ≠ emptyScheduler.cellFreeList := by
  have h1 : emptyScheduler.cellFreeList.free "gpu" 0 = [] := rfl
  have h2 : ((nodeEventHandler sampleEnv).deliver (NodeEvent.update plainNode gpuNode)
      emptyScheduler).cellFreeList.free "gpu" 0 = [0] := by decide
  refine ⟨sample_handler_registered, h1, h2, ?_⟩
  intro heq
  rw [heq, h1] at h2
  cases h2

/-- Claim C1 (amended): for every scheduler state, pod and node name, the Reserve
hook returns Success and the Unreserve hook returns; each only adds one line
to the log and leaves cellFreeList and cellElements as they were, so neither
a TryReserve nor a Release is performed. -/
theorem Reserve_Unreserve_frame (kss : KubeShareScheduler H P FL CE) (pod : Pod)
    (node : String) :
    (kss.Reserve pod node).1 = { code := Code.Success, message := "" } ∧
    (kss.Reserve pod node).2.cellFreeList = kss.cellFreeList ∧
    (kss.Reserve pod node).2.cellElements = kss.cellElements ∧
    (kss.Reserve pod node).2.ksl = kss.ksl ++
      [⟨LogLevel.Info, "[Reserve] pod: %v/%v(%v) in node %v",
        [pod.Namespace, pod.Name, pod.UID, pod.NodeName]⟩] ∧
    (kss.Unreserve pod node).cellFreeList = kss.cellFreeList ∧
    (kss.Unreserve pod node).cellElements = kss.cellElements ∧
    (kss.Unreserve pod node).ksl = kss.ksl ++
      [⟨LogLevel.Info, "[UnReserve] pod: %v/%v(%v) in node %v",
        [pod.Namespace, pod.Name, pod.UID, pod.NodeName]⟩] :=
  ⟨rfl, rfl, rfl, rfl, rfl, rfl, rfl⟩

/-- Claim C1 (counterexample): on a scheduler holding one Free gpu cell, TryReserve
for the pod succeeds, empties the gpu free list and marks the cell Allocated
to the pod, whereas after the Reserve hook the cell is still Free and still
in the free list; on the scheduler where the cell is Allocated to the pod,
Release returns it to the free list, whereas after the Unreserve hook the free
list is still empty and the cell still Allocated. -/
theorem Reserve_is_not_TryReserve :
    ((TryReserve sampleScheduler.cellElements sampleScheduler.cellFreeList "gpu" 0
        samplePod.UID).1 = Except.ok (some 0) ∧
      (TryReserve sampleScheduler.cellElements sampleScheduler.cellFreeList "gpu" 0
        samplePod.UID).2.free "gpu" 0 = [] ∧
      (TryReserve sampleScheduler.cellElements sampleScheduler.cellFreeList "gpu" 0
        samplePod.UID).2.cells 0 =
          some { coarseCell "gpu" with state := CellState.Allocated "uid-1" }) ∧
    ((sampleScheduler.Reserve samplePod "node-1").2.cellFreeList.free "gpu" 0 = [0] ∧
      (sampleScheduler.Reserve samplePod "node-1").2.cellFreeList.cells 0 =
        some (coarseCell "gpu")) ∧
    ((Release reservedScheduler.cellFreeList 0).1 = Except.ok () ∧
      (Release reservedScheduler.cellFreeList 0).2.free "gpu" 0 = [0] ∧
      (Release reservedScheduler.cellFreeList 0).2.cells 0 = some (coarseCell "gpu")) ∧
    ((reservedScheduler.Unreserve samplePod "node-1").cellFreeList.free "gpu" 0 = [] ∧
      (reservedScheduler.Unreserve samplePod "node-1").cellFreeList.cells 0 =
        some { coarseCell "gpu" with state := CellState.Allocated "uid-1" }) := by
  refine ⟨⟨rfl, ?_, ?_⟩, ⟨?_, ?_⟩, ⟨rfl, ?_, ?_⟩, ⟨?_, ?_⟩⟩ <;> decide

end Adapter


end KubeShare
